import Mathlib

/-!
# L03_data_structures: `itis::ArrayList` and `itis::LinkedList`

A shallow embedding of `src/include/array_list.hpp` and
`src/include/linked_list.hpp`, followed by theorems about the embedded code.

Modelling conventions.

* `char` is a byte, `CChar := Fin 256`.  Elements are only copied and compared
  for equality, never used in arithmetic.
* `int` (`size_`, `capacity_`, indices, loop counters) is a 32-bit two's
  complement integer, held in an `Int`.  The two additions of `ArrayList` that
  can leave the range, `capacity_ + kCapacityIncreaseCoefficient` and `size_++`
  in `PushBack` and `Insert`, wrap around through `to_int`, as the compiled code
  does.  The other `int` operations of `ArrayList` (loop counters, `i - 1`,
  `i + 1`, `size_--`) stay in range whenever their operands are `int` values,
  and are plain `Int` operations.
* A member function is a state transformer `Exec σ α := σ → Except Fault α × σ`:
  it always yields the object's state at the point where control leaves the
  function, together with either the returned value or the fault that ended it.
  A C++ exception and a failed `assert` are faults.
* The backing buffer `data_` is the list of its allocated slots.  A fresh
  `new char[n]` has indeterminate content; the model fills it with `0`.
* An access `data_[i]` with `i` outside the buffer does not stop the program:
  the compiled code reads or writes the byte next to the buffer and runs on.
  The state records these accesses in two fields that are not fields of the
  class: `stray`, the indices accessed outside the buffer, and `outside`, the
  bytes written there.  A read outside the buffer yields the byte last written
  at that index, and `0` for a byte the program has not written.  The record
  is kept, with its indices, when `resize` replaces the buffer.
* A `for` loop is a function by recursion on its trip count, which is passed at
  the call site as the exact number of iterations the loop performs; the loop
  condition of the source is still tested on every iteration.
* The nodes of a `LinkedList` live in a heap that is part of the state: a list
  with one entry per address, holding the node at that address or nothing once
  it has been deleted.  A `Node *` is `none` for `nullptr` or `some` address.
  Dereferencing a pointer that holds no live node, subtracting pointers to
  separate nodes, and `delete[]` on a node from `new Node` are
  `Fault.undefined_behaviour`, where the model of `LinkedList` stops.
-/

namespace itis

/-- The element type `char`. -/
abbrev CChar := Fin 256

/-- Ways in which control can leave a member function other than by returning. -/
inductive Fault where
  /-- Exception `std::out_of_range` thrown with the message `what`. -/
  | out_of_range (what : String)
  /-- Exception `std::bad_array_new_length`: `new char[n]` with `n < 0`. -/
  | bad_array_new_length
  /-- An `assert` failed. -/
  | assertion_failed
  /-- Access to memory that is not allocated, or another undefined operation. -/
  | undefined_behaviour
  deriving DecidableEq, Repr

deriving instance DecidableEq for Except

/-- Member functions: the state is threaded, a fault stops execution and keeps the
state reached so far. -/
def Exec (σ α : Type) : Type := σ → Except Fault α × σ

namespace Exec

/-- Returning `a` without touching the state. -/
def ret {σ α : Type} (a : α) : Exec σ α := fun s => (Except.ok a, s)

/-- Sequencing: a fault of the first action ends the whole action. -/
def seq {σ α β : Type} (m : Exec σ α) (f : α → Exec σ β) : Exec σ β := fun s =>
  match m s with
  | (Except.ok a, s1) => f a s1
  | (Except.error e, s1) => (Except.error e, s1)

/-- Leaving with fault `e`. -/
def fail {σ α : Type} (e : Fault) : Exec σ α := fun s => (Except.error e, s)

/-- Reading the whole state. -/
def read {σ : Type} : Exec σ σ := fun s => (Except.ok s, s)

/-- Updating the state. -/
def update {σ : Type} (f : σ → σ) : Exec σ Unit := fun s => (Except.ok (), f s)

/-- Lifting a fallible pure computation. -/
def lift {σ α : Type} (r : Except Fault α) : Exec σ α := fun s => (r, s)

end Exec

instance (σ : Type) : Monad (Exec σ) where
  pure := Exec.ret
  bind := Exec.seq

/-! ## `array_list.hpp` -/

/-- The fields of `struct ArrayList`; `data_` is the buffer `data_` points to, one
list element per allocated slot.  The last two fields are not fields of the class: they
record what the program has done to the memory next to the buffer. -/
structure ArrayList where
  size_ : Int
  capacity_ : Int
  data_ : List CChar
  /-- Bytes written outside the buffer: `(i, c)` says that `data_[i] = c` was executed with
  `i` outside the buffer; the most recent write comes first. -/
  outside : List (Int × CChar) := []
  /-- Indices `i` of the accesses `data_[i]`, reads and writes, made outside the buffer; the
  most recent access comes first. -/
  stray : List Int := []
  deriving DecidableEq, Repr

namespace ArrayList

def kInitCapacity : Int := 10

def kCapacityIncreaseCoefficient : Int := 10

/-- The value an `int` holds after an operation whose exact result is `x`: `x` itself when
it lies in `[-2^31, 2^31)`, and `x` reduced modulo `2^32` into that range otherwise. -/
def to_int (x : Int) : Int := (x + 2147483648) % 4294967296 - 2147483648

/-- The byte at index `i` outside the buffer: the one last written there, `0` when the
program has written none. -/
def peek (m : List (Int × CChar)) (i : Int) : CChar :=
  match m.lookup i with
  | some c => c
  | none => 0

/-- The slot `d[i]` of a buffer, `none` when `i` is outside the buffer. -/
def slot (d : List CChar) (i : Int) : Option CChar :=
  if 0 ≤ i then d.get? i.toNat else none

/-- The allocation `new char[n]`. -/
def new_chars (n : Int) : Except Fault (List CChar) :=
  if n < 0 then Except.error Fault.bad_array_new_length
  else Except.ok (List.replicate n.toNat 0)

/-- The read `data_[i]`.  Outside the buffer it reads the byte next to the buffer, and the
access is recorded in `stray`. -/
def load (i : Int) : Exec ArrayList CChar := fun s =>
  match slot s.data_ i with
  | some c => (Except.ok c, s)
  | none => (Except.ok (peek s.outside i), { s with stray := i :: s.stray })

/-- The write `data_[i] = v`.  Outside the buffer it writes the byte next to the buffer, and
the access is recorded in `outside` and `stray`. -/
def store (i : Int) (v : CChar) : Exec ArrayList Unit := fun s =>
  match slot s.data_ i with
  | some _ => (Except.ok (), { s with data_ := s.data_.set i.toNat v })
  | none => (Except.ok (), { s with outside := (i, v) :: s.outside, stray := i :: s.stray })

/-- The constructor `ArrayList()`. -/
def ctor_default : Except Fault ArrayList := do
  let data ← new_chars kInitCapacity
  pure { size_ := 0, capacity_ := kInitCapacity, data_ := data }

/-- The constructor `ArrayList(int capacity)`. -/
def ctor (capacity : Int) : Except Fault ArrayList := do
  let data ← new_chars capacity
  pure { size_ := 0, capacity_ := capacity, data_ := data }

/-- The private `check_out_of_range`. -/
def check_out_of_range (index : Int) : Exec ArrayList Unit := do
  let s ← Exec.read
  if index ≥ s.size_ then
    Exec.fail (Fault.out_of_range ("index is out of range: " ++ toString s.size_))
  else
    pure ()

/-- The call `std::copy(src, src + n, dst)`: the first `n` slots of `dst` receive the
first `n` slots of `src`; both ranges have to lie inside their buffers. -/
def std_copy (src : List CChar) (n : Int) (dst : List CChar) : Except Fault (List CChar) :=
  if 0 ≤ n ∧ n ≤ src.length ∧ n ≤ dst.length then
    Except.ok (src.take n.toNat ++ dst.drop n.toNat)
  else
    Except.error Fault.undefined_behaviour

/-- The private `resize`. -/
def resize (new_capacity : Int) : Exec ArrayList Unit := do
  let s ← Exec.read
  if ¬ (new_capacity > s.capacity_) then
    Exec.fail Fault.assertion_failed
  else
    let time_data ← Exec.lift (new_chars new_capacity)
    let time_data ← Exec.lift (std_copy s.data_ s.size_ time_data)
    Exec.update fun s => { s with data_ := time_data }
    Exec.update fun s => { s with capacity_ := new_capacity }

def PushBack (element : CChar) : Exec ArrayList Unit := do
  let s ← Exec.read
  if s.capacity_ = s.size_ then
    resize (to_int (s.capacity_ + kCapacityIncreaseCoefficient))
  let s ← Exec.read
  store s.size_ element
  Exec.update fun s => { s with size_ := to_int (s.size_ + 1) }

/-- The loop `for (int i = size_; i > index; i--) data_[i] = data_[i-1];` of `Insert`,
entered with counter `i` and `n` iterations to go. -/
def Insert_loop (index : Int) : Nat → Int → Exec ArrayList Unit
  | 0, _ => pure ()
  | n + 1, i =>
    if i > index then do
      let x ← load (i - 1)
      store i x
      Insert_loop index n (i - 1)
    else
      pure ()

def Insert (index : Int) (element : CChar) : Exec ArrayList Unit := do
  check_out_of_range index
  let s ← Exec.read
  if s.size_ = s.capacity_ then
    resize (to_int (s.capacity_ + kCapacityIncreaseCoefficient))
  let s ← Exec.read
  Insert_loop index (s.size_ - index).toNat s.size_
  Exec.update fun s => { s with size_ := to_int (s.size_ + 1) }
  store index element

/-- The loop `for (int i = index; i < size_; ++i) data_[i] = data_[i + 1];` of `Remove`,
entered with counter `i` and `n` iterations to go. -/
def Remove_loop : Nat → Int → Exec ArrayList Unit
  | 0, _ => pure ()
  | n + 1, i => do
    let s ← Exec.read
    if i < s.size_ then
      let x ← load (i + 1)
      store i x
      Remove_loop n (i + 1)
    else
      pure ()

def Remove (index : Int) : Exec ArrayList CChar := do
  check_out_of_range index
  let elem ← load index
  let s ← Exec.read
  Remove_loop (s.size_ - index).toNat index
  Exec.update fun s => { s with size_ := s.size_ - 1 }
  pure elem

def Clear : Exec ArrayList Unit :=
  Exec.update fun s => { s with size_ := 0 }

def Get (index : Int) : Exec ArrayList CChar := do
  check_out_of_range index
  load index

/-- The loop of `IndexOf`, entered with counter `i` and `n` iterations to go. -/
def IndexOf_loop (element : CChar) : Nat → Int → Exec ArrayList Int
  | 0, _ => pure (-1)
  | n + 1, i => do
    let s ← Exec.read
    if i < s.size_ then
      let x ← load i
      if x = element then pure i else IndexOf_loop element n (i + 1)
    else
      pure (-1)

def IndexOf (element : CChar) : Exec ArrayList Int := do
  let s ← Exec.read
  IndexOf_loop element s.size_.toNat 0

/-- The loop of `Contains`, entered with counter `i` and `n` iterations to go. -/
def Contains_loop (element : CChar) : Nat → Int → Exec ArrayList Bool
  | 0, _ => pure false
  | n + 1, i => do
    let s ← Exec.read
    if i < s.size_ then
      let x ← load i
      if element = x then pure true else Contains_loop element n (i + 1)
    else
      pure false

def Contains (element : CChar) : Exec ArrayList Bool := do
  let s ← Exec.read
  Contains_loop element s.size_.toNat 0

def IsEmpty : Exec ArrayList Bool := do
  let s ← Exec.read
  pure (decide (s.size_ = 0))

def GetSize : Exec ArrayList Int := do
  let s ← Exec.read
  pure s.size_

def GetCapacity : Exec ArrayList Int := do
  let s ← Exec.read
  pure s.capacity_

/-- The calls `PushBack(e0); ...; PushBack(en-1)` made one after the other. -/
def PushBack_all : List CChar → Exec ArrayList Unit
  | [] => pure ()
  | e :: es => do
    PushBack e
    PushBack_all es

/-- The invariant of the data model, `0 ≤ size_ ≤ capacity_`, with `capacity_` the number of
slots of the buffer. -/
def Invariant (l : ArrayList) : Prop :=
  0 ≤ l.size_ ∧ l.size_ ≤ l.capacity_ ∧ (l.data_.length : Int) = l.capacity_

instance (l : ArrayList) : Decidable (Invariant l) := by
  unfold Invariant
  infer_instance

/-- The states a list can be in: those left by a constructor, and those in which a call of
a public member function on such a state ends, whether it returns or not. -/
inductive Reachable : ArrayList → Prop where
  | ctor_default (l : ArrayList) : ctor_default = Except.ok l → Reachable l
  | ctor (capacity : Int) (l : ArrayList) : ctor capacity = Except.ok l → Reachable l
  | PushBack (l : ArrayList) (element : CChar) : Reachable l → Reachable (PushBack element l).2
  | Insert (l : ArrayList) (index : Int) (element : CChar) :
      Reachable l → Reachable (Insert index element l).2
  | Remove (l : ArrayList) (index : Int) : Reachable l → Reachable (Remove index l).2
  | Clear (l : ArrayList) : Reachable l → Reachable (Clear l).2
  | Get (l : ArrayList) (index : Int) : Reachable l → Reachable (Get index l).2
  | IndexOf (l : ArrayList) (element : CChar) : Reachable l → Reachable (IndexOf element l).2
  | Contains (l : ArrayList) (element : CChar) : Reachable l → Reachable (Contains element l).2
  | IsEmpty (l : ArrayList) : Reachable l → Reachable (IsEmpty l).2
  | GetSize (l : ArrayList) : Reachable l → Reachable (GetSize l).2
  | GetCapacity (l : ArrayList) : Reachable l → Reachable (GetCapacity l).2

end ArrayList

/-! ## `linked_list.hpp` -/

/-- A value of type `Node *`: `none` is `nullptr`, `some a` is the address `a` of a node. -/
abbrev NodePtr := Option Nat

/-- The fields of `struct Node`. -/
structure Node where
  data : CChar
  next_ : NodePtr
  deriving DecidableEq, Repr

/-- The fields of `struct LinkedList`, together with the nodes on the free store: `heap`
holds at position `a` the node at address `a`, or `none` once that node has been deleted. -/
structure LinkedList where
  size_ : Int
  head_ : NodePtr
  tail_ : NodePtr
  heap : List (Option Node)
  deriving DecidableEq, Repr

namespace LinkedList

/-- The node a pointer points to, `none` for `nullptr` and for an address that holds no
live node. -/
def node_at (h : List (Option Node)) (p : NodePtr) : Option Node :=
  match p with
  | none => none
  | some a => (h.get? a).join

/-- The allocation `new Node`; the fields of a fresh node are indeterminate, the model
fills them with `0` and `nullptr`. -/
def new_node : Exec LinkedList NodePtr := fun s =>
  (Except.ok (some s.heap.length), { s with heap := s.heap ++ [some { data := 0, next_ := none }] })

/-- The read `p->data`. -/
def get_data (p : NodePtr) : Exec LinkedList CChar := fun s =>
  match node_at s.heap p with
  | some nd => (Except.ok nd.data, s)
  | none => (Except.error Fault.undefined_behaviour, s)

/-- The read `p->next_`. -/
def get_next (p : NodePtr) : Exec LinkedList NodePtr := fun s =>
  match node_at s.heap p with
  | some nd => (Except.ok nd.next_, s)
  | none => (Except.error Fault.undefined_behaviour, s)

/-- The write `p->data = v`. -/
def set_data (p : NodePtr) (v : CChar) : Exec LinkedList Unit := fun s =>
  match node_at s.heap p with
  | some nd => (Except.ok (), { s with heap := s.heap.set (p.getD 0) (some { nd with data := v }) })
  | none => (Except.error Fault.undefined_behaviour, s)

/-- The write `p->next_ = q`. -/
def set_next (p : NodePtr) (q : NodePtr) : Exec LinkedList Unit := fun s =>
  match node_at s.heap p with
  | some nd => (Except.ok (), { s with heap := s.heap.set (p.getD 0) (some { nd with next_ := q }) })
  | none => (Except.error Fault.undefined_behaviour, s)

/-- The statement `delete p` for a pointer obtained from `new Node`. -/
def delete_node (p : NodePtr) : Exec LinkedList Unit := fun s =>
  match p with
  | none => (Except.ok (), s)
  | some a =>
    match node_at s.heap p with
    | some _ => (Except.ok (), { s with heap := s.heap.set a none })
    | none => (Except.error Fault.undefined_behaviour, s)

/-- The statement `delete[] p`: every node comes from the non-array `new Node`, so the
array form is defined for `nullptr` only. -/
def delete_array (p : NodePtr) : Exec LinkedList Unit := fun s =>
  match p with
  | none => (Except.ok (), s)
  | some _ => (Except.error Fault.undefined_behaviour, s)

/-- The pointer difference `p - q`: nodes are separate objects, so it is defined only for
equal pointers, where it is `0`. -/
def ptr_diff (p q : NodePtr) : Exec LinkedList Int := fun s =>
  if p = q then (Except.ok 0, s) else (Except.error Fault.undefined_behaviour, s)

/-- The defaulted constructor `LinkedList()`, on an empty free store. -/
def ctor : LinkedList := { size_ := 0, head_ := none, tail_ := none, heap := [] }

/-- The private `check_out_of_range`. -/
def check_out_of_range (index : Int) : Exec LinkedList Unit := do
  let s ← Exec.read
  if index ≥ s.size_ then
    Exec.fail (Fault.out_of_range ("index is out of range: " ++ toString s.size_))
  else
    pure ()

def PushBack (element : CChar) : Exec LinkedList Unit := do
  let n ← new_node
  set_data n element
  set_next n none
  let s ← Exec.read
  set_next s.tail_ n
  Exec.update fun s => { s with tail_ := n }

/-- The loop `for (int i = 0; i < bound; ++i) nextNode = nextNode->next_;` shared by
`Insert` (`bound = index - 1`), `Remove` (`bound = index - 1`) and `Get` (`bound = index`),
entered with counter `i` at node `p` and `n` iterations to go; it yields the node reached. -/
def walk (bound : Int) : Nat → Int → NodePtr → Exec LinkedList NodePtr
  | 0, _, p => pure p
  | n + 1, i, p =>
    if i < bound then do
      let q ← get_next p
      walk bound n (i + 1) q
    else
      pure p

def Insert (index : Int) (element : CChar) : Exec LinkedList Unit := do
  check_out_of_range index
  let s ← Exec.read
  let nextNode ← walk (index - 1) (index - 1).toNat 0 s.head_
  let newNode ← new_node
  set_data newNode element
  let nx ← get_next nextNode
  set_next newNode nx
  set_next nextNode newNode

def Remove (index : Int) : Exec LinkedList CChar := do
  check_out_of_range index
  let s ← Exec.read
  let nextNode ← walk (index - 1) (index - 1).toNat 0 s.head_
  let indexedNode ← get_next nextNode
  let nx ← get_next nextNode
  let nxnx ← get_next nx
  set_next nextNode nxnx
  let nc ← get_data indexedNode
  delete_node indexedNode
  pure nc

/-- The loop of `Clear`, entered with counter `i` at node `nextNode` and `n` iterations
to go; it yields the node reached.  The loop assigns neither `head_` nor `tail_`, so its
bound `tail_ - head_ - 1` has one value throughout, passed as `bound`. -/
def Clear_loop (bound : Int) : Nat → Int → NodePtr → Exec LinkedList NodePtr
  | 0, _, nextNode => pure nextNode
  | n + 1, i, nextNode =>
    if i < bound then do
      let previousNode := nextNode
      let nextNode ← get_next nextNode
      delete_array previousNode
      Clear_loop bound n (i + 1) nextNode
    else
      pure nextNode

def Clear : Exec LinkedList Unit := do
  let s ← Exec.read
  let d ← ptr_diff s.tail_ s.head_
  let nextNode ← Clear_loop (d - 1) (d - 1).toNat 0 s.head_
  delete_array nextNode

def Get (index : Int) : Exec LinkedList CChar := do
  check_out_of_range index
  let s ← Exec.read
  let newNode ← walk index index.toNat 0 s.head_
  get_data newNode

/-- The loop of `IndexOf`, entered with counter `i` at node `nextNode` and `n` iterations
to go.  The loop assigns neither `head_` nor `tail_`, so its bound `tail_ - head_` has one
value throughout, passed as `bound`. -/
def IndexOf_loop (element : CChar) (bound : Int) : Nat → Int → NodePtr → Exec LinkedList Int
  | 0, _, _ => pure (-1)
  | n + 1, i, nextNode =>
    if i < bound then do
      let x ← get_data nextNode
      if x = element then pure i
      else do
        let s ← Exec.read
        if nextNode = s.tail_ then pure (-1)
        else do
          let q ← get_next nextNode
          IndexOf_loop element bound n (i + 1) q
    else
      pure (-1)

def IndexOf (element : CChar) : Exec LinkedList Int := do
  let s ← Exec.read
  let d ← ptr_diff s.tail_ s.head_
  IndexOf_loop element d d.toNat 0 s.head_

def IsEmpty : Exec LinkedList Bool := do
  let s ← Exec.read
  pure (decide (s.head_ ≠ none))

def GetSize : Exec LinkedList Int := do
  let s ← Exec.read
  pure s.size_

def GetCapacity : Exec LinkedList Int := do
  let s ← Exec.read
  pure s.size_

/-- The chain test: following `next_` from `p` in the heap `h` meets live nodes holding the
values `vs` in this order, and the `next_` of the last of them is `nullptr` (for empty `vs`,
`p` itself is `nullptr`). -/
def is_chain (h : List (Option Node)) : NodePtr → List CChar → Bool
  | p, [] => p.isNone
  | p, v :: vs =>
    match node_at h p with
    | some nd => decide (nd.data = v) && is_chain h nd.next_ vs
    | none => false

/-- The states a list can be in: the one left by the constructor, and those in which a call
of a public member function on such a state ends, whether it returns or not. -/
inductive Reachable : LinkedList → Prop where
  | ctor : Reachable ctor
  | PushBack (s : LinkedList) (element : CChar) : Reachable s → Reachable (PushBack element s).2
  | Insert (s : LinkedList) (index : Int) (element : CChar) :
      Reachable s → Reachable (Insert index element s).2
  | Remove (s : LinkedList) (index : Int) : Reachable s → Reachable (Remove index s).2
  | Clear (s : LinkedList) : Reachable s → Reachable (Clear s).2
  | Get (s : LinkedList) (index : Int) : Reachable s → Reachable (Get index s).2
  | IndexOf (s : LinkedList) (element : CChar) : Reachable s → Reachable (IndexOf element s).2
  | IsEmpty (s : LinkedList) : Reachable s → Reachable (IsEmpty s).2
  | GetSize (s : LinkedList) : Reachable s → Reachable (GetSize s).2
  | GetCapacity (s : LinkedList) : Reachable s → Reachable (GetCapacity s).2

end LinkedList

end itis


namespace itis

namespace Exec

variable {σ α β : Type}

theorem bind_ok {m : Exec σ α} {f : α → Exec σ β} {s s1 : σ} {a : α}
    (h : m s = (Except.ok a, s1)) : (m >>= f) s = f a s1 := by
  show Exec.seq m f s = _
  simp [Exec.seq, h]

theorem bind_error {m : Exec σ α} {f : α → Exec σ β} {s s1 : σ} {e : Fault}
    (h : m s = (Except.error e, s1)) : (m >>= f) s = (Except.error e, s1) := by
  show Exec.seq m f s = _
  simp [Exec.seq, h]

@[simp] theorem pure_apply (a : α) (s : σ) : (pure a : Exec σ α) s = (Except.ok a, s) := rfl

@[simp] theorem read_bind (f : σ → Exec σ β) (s : σ) : (Exec.read >>= f) s = f s s := rfl

@[simp] theorem update_bind (g : σ → σ) (f : Unit → Exec σ β) (s : σ) :
    (Exec.update g >>= f) s = f () (g s) := rfl

@[simp] theorem fail_bind (e : Fault) (f : α → Exec σ β) (s : σ) :
    ((Exec.fail e : Exec σ α) >>= f) s = (Except.error e, s) := rfl

@[simp] theorem fail_apply (e : Fault) (s : σ) :
    (Exec.fail e : Exec σ α) s = (Except.error e, s) := rfl

@[simp] theorem update_apply (g : σ → σ) (s : σ) : Exec.update g s = (Except.ok (), g s) := rfl

@[simp] theorem lift_ok_bind (a : α) (f : α → Exec σ β) (s : σ) :
    ((Exec.lift (Except.ok a) : Exec σ α) >>= f) s = f a s := rfl

@[simp] theorem lift_error_bind (e : Fault) (f : α → Exec σ β) (s : σ) :
    ((Exec.lift (Except.error e) : Exec σ α) >>= f) s = (Except.error e, s) := rfl

@[simp] theorem read_apply (s : σ) : (Exec.read : Exec σ σ) s = (Except.ok s, s) := rfl

/-- An action built from steps that keep the observation `g` of the state keeps `g`, however
it ends. -/
theorem bind_keeps {γ : Type} (g : σ → γ) {m : Exec σ α} {f : α → Exec σ β}
    (hm : ∀ s, g (m s).2 = g s) (hf : ∀ a s, g (f a s).2 = g s) :
    ∀ s, g ((m >>= f) s).2 = g s := by
  intro s
  show g (Exec.seq m f s).2 = g s
  unfold Exec.seq
  have h := hm s
  split
  next a s1 heq => rw [heq] at h; rw [hf a s1]; exact h
  next e s1 heq => rw [heq] at h; exact h

/-- Two actions that start with the same step and go on alike are the same action. -/
theorem bind_congr_apply {m : Exec σ α} {f g : α → Exec σ β} (s : σ)
    (h : ∀ a s1, f a s1 = g a s1) : (m >>= f) s = (m >>= g) s := by
  show Exec.seq m f s = Exec.seq m g s
  unfold Exec.seq
  split
  next a s1 _ => exact h a s1
  next e s1 _ => rfl

end Exec

namespace ArrayList

/-! ### Buffer slots -/

theorem slot_eq_some {d : List CChar} {i : Int} (h0 : 0 ≤ i) (h1 : i < d.length) :
    ∃ c, slot d i = some c := by
  have h : i.toNat < d.length := by omega
  exact ⟨d[i.toNat], by simp [slot, h0, List.getElem?_eq_getElem h]⟩

theorem slot_eq_none {d : List CChar} {i : Int} (h : i < 0 ∨ (d.length : Int) ≤ i) :
    slot d i = none := by
  unfold slot
  split
  · have h' : d.length ≤ i.toNat := by omega
    simp [List.getElem?_eq_none h']
  · rfl

theorem slot_lt {d : List CChar} {i : Int} {c : CChar} (h : slot d i = some c) :
    0 ≤ i ∧ i < d.length := by
  by_contra hc
  have : slot d i = none := slot_eq_none (by omega)
  simp [this] at h

theorem slot_set {d : List CChar} {i k : Int} {v : CChar} (h0 : 0 ≤ i) (h1 : i < d.length) :
    slot (d.set i.toNat v) k = if k = i then some v else slot d k := by
  unfold slot
  by_cases hk : 0 ≤ k
  · by_cases hki : k = i
    · subst hki
      have h : k.toNat < d.length := by omega
      simp [hk, h]
    · have hne : i.toNat ≠ k.toNat := by omega
      simp [hk, hki, List.getElem?_set_ne hne]
  · have hki : k ≠ i := by omega
    simp [hk, hki]

/-! ### `int` arithmetic -/

theorem to_int_of_range {x : Int} (h0 : -2147483648 ≤ x) (h1 : x ≤ 2147483647) :
    to_int x = x := by
  unfold to_int
  omega

theorem to_int_above {x : Int} (h0 : 2147483647 < x) (h1 : x ≤ 6442450943) :
    to_int x = x - 4294967296 := by
  unfold to_int
  omega

/-! ### Primitive steps -/

theorem load_ok {s : ArrayList} {i : Int} {c : CChar} (h : slot s.data_ i = some c) :
    load i s = (Except.ok c, s) := by
  simp [load, h]

theorem load_stray {s : ArrayList} {i : Int} (h : slot s.data_ i = none) :
    load i s = (Except.ok (peek s.outside i), { s with stray := i :: s.stray }) := by
  simp [load, h]

theorem store_ok {s : ArrayList} {i : Int} (v : CChar) (h0 : 0 ≤ i) (h1 : i < s.data_.length) :
    store i v s = (Except.ok (), { s with data_ := s.data_.set i.toNat v }) := by
  obtain ⟨c, hc⟩ := slot_eq_some h0 h1
  simp [store, hc]

theorem store_stray {s : ArrayList} {i : Int} (v : CChar) (h : slot s.data_ i = none) :
    store i v s
      = (Except.ok (), { s with outside := (i, v) :: s.outside, stray := i :: s.stray }) := by
  simp [store, h]

/-- A read returns, whatever the index, and changes neither a field nor the buffer. -/
theorem load_run (i : Int) (s : ArrayList) :
    ∃ x s1, load i s = (Except.ok x, s1) ∧ s1.size_ = s.size_ ∧ s1.capacity_ = s.capacity_
      ∧ s1.data_ = s.data_ := by
  cases h : slot s.data_ i with
  | some c => exact ⟨c, s, load_ok h, rfl, rfl, rfl⟩
  | none => exact ⟨_, _, load_stray h, rfl, rfl, rfl⟩

/-- A write returns, whatever the index, and changes neither a field nor the number of
slots of the buffer. -/
theorem store_run (i : Int) (v : CChar) (s : ArrayList) :
    ∃ s1, store i v s = (Except.ok (), s1) ∧ s1.size_ = s.size_ ∧ s1.capacity_ = s.capacity_
      ∧ s1.data_.length = s.data_.length := by
  cases h : slot s.data_ i with
  | some c =>
    have hlt := slot_lt h
    exact ⟨_, store_ok v hlt.1 hlt.2, rfl, rfl, by simp⟩
  | none => exact ⟨_, store_stray v h, rfl, rfl, rfl⟩

theorem check_out_of_range_ok {s : ArrayList} {index : Int} (h : index < s.size_) :
    check_out_of_range index s = (Except.ok (), s) := by
  have h' : ¬ index ≥ s.size_ := by omega
  simp [check_out_of_range, h']

theorem check_out_of_range_error {s : ArrayList} {index : Int} (h : s.size_ ≤ index) :
    check_out_of_range index s
      = (Except.error (Fault.out_of_range ("index is out of range: " ++ toString s.size_)), s) := by
  have h' : index ≥ s.size_ := h
  simp [check_out_of_range, h']

/-- Growing a full buffer whose capacity leaves room for ten more in an `int`:
`resize(capacity_ + 10)` succeeds, keeps `size_` and the slots below `size_`, and yields a
buffer of `capacity_ + 10` slots. -/
theorem resize_full {s : ArrayList} (h0 : 0 ≤ s.size_) (h1 : s.size_ = s.capacity_)
    (h2 : (s.data_.length : Int) = s.capacity_) (h3 : s.capacity_ ≤ 2147483637) :
    ∃ d, resize (to_int (s.capacity_ + kCapacityIncreaseCoefficient)) s
        = (Except.ok (), { s with capacity_ := s.capacity_ + 10, data_ := d })
      ∧ (d.length : Int) = s.capacity_ + 10
      ∧ ∀ k : Int, k < s.size_ → slot d k = slot s.data_ k := by
  have hlen : s.data_.length = s.size_.toNat := by omega
  have hti : to_int (s.capacity_ + kCapacityIncreaseCoefficient) = s.capacity_ + 10 :=
    to_int_of_range (by simp only [kCapacityIncreaseCoefficient]; omega)
      (by simp only [kCapacityIncreaseCoefficient]; omega)
  refine ⟨s.data_ ++ List.replicate 10 0, ?_, ?_, ?_⟩
  · have e1 : new_chars (s.capacity_ + 10)
        = Except.ok (List.replicate (s.capacity_ + 10).toNat 0) := by
      have : ¬ s.capacity_ + 10 < 0 := by omega
      simp [new_chars, this]
    have e2 : std_copy s.data_ s.size_ (List.replicate (s.capacity_ + 10).toNat 0)
        = Except.ok (s.data_ ++ List.replicate 10 0) := by
      have hc : 0 ≤ s.size_ ∧ s.size_ ≤ (s.data_.length : Int)
          ∧ s.size_ ≤ ((List.replicate (s.capacity_ + 10).toNat (0 : CChar)).length : Int) := by
        refine ⟨h0, by omega, ?_⟩
        simp only [List.length_replicate]
        omega
      have ht : List.take s.size_.toNat s.data_ = s.data_ := by
        rw [← hlen]; exact List.take_length _
      have hd : (s.capacity_ + 10).toNat - s.size_.toNat = 10 := by omega
      rw [std_copy, if_pos hc, ht, List.drop_replicate, hd]
    have hgt : s.capacity_ + 10 > s.capacity_ := by omega
    rw [hti]
    simp [resize, e1, e2, hgt]
  · simp; omega
  · intro k hk
    unfold slot
    split
    · have : k.toNat < s.data_.length := by omega
      simp [List.getElem?_append_left this]
    · rfl

/-- Growing a buffer whose capacity is within ten of the largest `int`: the sum
`capacity_ + 10` wraps to a negative `int`, and the `assert` of `resize` fails before
anything is allocated or assigned. -/
theorem resize_overflow {s : ArrayList} (h0 : 2147483637 < s.capacity_)
    (h1 : s.capacity_ ≤ 2147483647) :
    resize (to_int (s.capacity_ + kCapacityIncreaseCoefficient)) s
      = (Except.error Fault.assertion_failed, s) := by
  have hti : to_int (s.capacity_ + kCapacityIncreaseCoefficient) = s.capacity_ + 10 - 4294967296 :=
    to_int_above (by simp only [kCapacityIncreaseCoefficient]; omega)
      (by simp only [kCapacityIncreaseCoefficient]; omega)
  have hle : ¬ (s.capacity_ + 10 - 4294967296 > s.capacity_) := by omega
  rw [hti]
  simp [resize, hle]

/-! ### Trip counts

Each loop is entered with its exact trip count; a larger count gives the same run, so no
run below is cut short by the count. -/

theorem store_keeps_size (i : Int) (v : CChar) (s : ArrayList) :
    (store i v s).2.size_ = s.size_ := by
  unfold store
  split <;> rfl

theorem Insert_loop_count (index : Int) (n : Nat) : ∀ (i : Int), (i - index).toNat ≤ n →
    Insert_loop index n i = Insert_loop index (i - index).toNat i := by
  induction n with
  | zero =>
    intro i h
    rw [Nat.le_zero.mp h]
  | succ n ih =>
    intro i h
    by_cases hgt : i > index
    · have hm : (i - index).toNat = (i - 1 - index).toNat + 1 := by omega
      rw [hm, Insert_loop, Insert_loop, if_pos hgt, if_pos hgt, ih (i - 1) (by omega)]
    · have hm : (i - index).toNat = 0 := by omega
      rw [hm, Insert_loop, Insert_loop, if_neg hgt]

theorem Remove_loop_count (n : Nat) : ∀ (i : Int) (s : ArrayList), (s.size_ - i).toNat ≤ n →
    Remove_loop n i s = Remove_loop (s.size_ - i).toNat i s := by
  induction n with
  | zero =>
    intro i s h
    rw [Nat.le_zero.mp h]
  | succ n ih =>
    intro i s h
    by_cases hlt : i < s.size_
    · have hm : (s.size_ - i).toNat = (s.size_ - (i + 1)).toNat + 1 := by omega
      obtain ⟨x, s1, hl, e1, _, _⟩ := load_run (i + 1) s
      obtain ⟨s2, hs, e2, _, _⟩ := store_run i x s1
      rw [hm, Remove_loop, Remove_loop, Exec.read_bind, Exec.read_bind, if_pos hlt, if_pos hlt,
        Exec.bind_ok hl, Exec.bind_ok hl, Exec.bind_ok hs, Exec.bind_ok hs,
        ih (i + 1) s2 (by omega), e2, e1]
    · have hm : (s.size_ - i).toNat = 0 := by omega
      rw [hm, Remove_loop, Remove_loop, Exec.read_bind, if_neg hlt]

theorem IndexOf_loop_count (v : CChar) (n : Nat) : ∀ (i : Int) (s : ArrayList),
    (s.size_ - i).toNat ≤ n →
    IndexOf_loop v n i s = IndexOf_loop v (s.size_ - i).toNat i s := by
  induction n with
  | zero =>
    intro i s h
    rw [Nat.le_zero.mp h]
  | succ n ih =>
    intro i s h
    by_cases hlt : i < s.size_
    · have hm : (s.size_ - i).toNat = (s.size_ - (i + 1)).toNat + 1 := by omega
      obtain ⟨x, s1, hl, e1, _, _⟩ := load_run i s
      rw [hm, IndexOf_loop, IndexOf_loop, Exec.read_bind, Exec.read_bind, if_pos hlt,
        if_pos hlt, Exec.bind_ok hl, Exec.bind_ok hl]
      by_cases hx : x = v
      · rw [if_pos hx, if_pos hx]
      · rw [if_neg hx, if_neg hx, ih (i + 1) s1 (by omega), e1]
    · have hm : (s.size_ - i).toNat = 0 := by omega
      rw [hm, IndexOf_loop, IndexOf_loop, Exec.read_bind, if_neg hlt]

theorem Contains_loop_count (v : CChar) (n : Nat) : ∀ (i : Int) (s : ArrayList),
    (s.size_ - i).toNat ≤ n →
    Contains_loop v n i s = Contains_loop v (s.size_ - i).toNat i s := by
  induction n with
  | zero =>
    intro i s h
    rw [Nat.le_zero.mp h]
  | succ n ih =>
    intro i s h
    by_cases hlt : i < s.size_
    · have hm : (s.size_ - i).toNat = (s.size_ - (i + 1)).toNat + 1 := by omega
      obtain ⟨x, s1, hl, e1, _, _⟩ := load_run i s
      rw [hm, Contains_loop, Contains_loop, Exec.read_bind, Exec.read_bind, if_pos hlt,
        if_pos hlt, Exec.bind_ok hl, Exec.bind_ok hl]
      by_cases hx : v = x
      · rw [if_pos hx, if_pos hx]
      · rw [if_neg hx, if_neg hx, ih (i + 1) s1 (by omega), e1]
    · have hm : (s.size_ - i).toNat = 0 := by omega
      rw [hm, Contains_loop, Contains_loop, Exec.read_bind, if_neg hlt]

/-! ### `PushBack` -/

theorem PushBack_run (l : ArrayList) (v : CChar) (h0 : 0 ≤ l.size_) (h1 : l.size_ ≤ l.capacity_)
    (h2 : (l.data_.length : Int) = l.capacity_) (h3 : l.capacity_ ≤ 2147483647)
    (h4 : l.size_ = l.capacity_ → l.capacity_ ≤ 2147483637) :
    ∃ l', PushBack v l = (Except.ok (), l')
      ∧ l'.size_ = l.size_ + 1
      ∧ l'.capacity_ = (if l.size_ = l.capacity_ then l.capacity_ + 10 else l.capacity_)
      ∧ (l'.data_.length : Int) = l'.capacity_
      ∧ slot l'.data_ l.size_ = some v
      ∧ (∀ k : Int, k < l.size_ → slot l'.data_ k = slot l.data_ k)
      ∧ l'.stray = l.stray := by
  have hsz : to_int (l.size_ + 1) = l.size_ + 1 := by
    by_cases hfull : l.size_ = l.capacity_
    · have := h4 hfull
      exact to_int_of_range (by omega) (by omega)
    · exact to_int_of_range (by omega) (by omega)
  by_cases hfull : l.capacity_ = l.size_
  · obtain ⟨d, hr, hlen, hs⟩ := resize_full h0 hfull.symm h2 (h4 hfull.symm)
    have hst := store_ok (s := { l with capacity_ := l.capacity_ + 10, data_ := d }) v
      (i := l.size_) h0 (by simp only; omega)
    refine ⟨{ l with size_ := l.size_ + 1, capacity_ := l.capacity_ + 10, data_ := d.set l.size_.toNat v },
      ?_, rfl, by simp [hfull.symm], by simp; omega, ?_, ?_, rfl⟩
    · unfold PushBack
      simp only [Exec.read_bind, if_pos hfull]
      rw [Exec.bind_ok hr]
      simp only [Exec.read_bind]
      rw [Exec.bind_ok hst]
      simp only [Exec.update_apply, hsz]
    · rw [slot_set h0 (by omega)]; simp
    · intro k hk
      rw [slot_set h0 (by omega), if_neg (by omega)]
      exact hs k hk
  · have hlt : l.size_ < l.data_.length := by omega
    have hst := store_ok (s := l) v h0 hlt
    refine ⟨{ l with size_ := l.size_ + 1, data_ := l.data_.set l.size_.toNat v },
      ?_, rfl, by simp [Ne.symm hfull], by simp; omega, ?_, ?_, rfl⟩
    · unfold PushBack
      simp only [Exec.read_bind, if_neg hfull, Exec.pure_apply]
      rw [Exec.bind_ok (Exec.pure_apply _ _)]
      simp only [Exec.read_bind]
      rw [Exec.bind_ok hst]
      simp only [Exec.update_apply, hsz]
    · rw [slot_set h0 hlt]; simp
    · intro k hk
      rw [slot_set h0 hlt, if_neg (by omega)]

/-- The call `PushBack(v)` on a full list whose capacity is within ten of the largest `int`
ends at the `assert` of `resize`, with the state as it was. -/
theorem PushBack_overflow (l : ArrayList) (v : CChar) (h1 : l.capacity_ = l.size_)
    (h2 : 2147483637 < l.capacity_) (h3 : l.capacity_ ≤ 2147483647) :
    PushBack v l = (Except.error Fault.assertion_failed, l) := by
  unfold PushBack
  simp only [Exec.read_bind, if_pos h1]
  rw [Exec.bind_error (resize_overflow h2 h3)]

/-! ### `Get` -/

theorem Get_ok {s : ArrayList} {index : Int} {c : CChar} (h : index < s.size_)
    (hc : slot s.data_ index = some c) : Get index s = (Except.ok c, s) := by
  unfold Get
  rw [Exec.bind_ok (check_out_of_range_ok h)]
  exact load_ok hc

theorem Get_error {s : ArrayList} {index : Int} (h : s.size_ ≤ index) :
    Get index s
      = (Except.error (Fault.out_of_range ("index is out of range: " ++ toString s.size_)), s) := by
  unfold Get
  rw [Exec.bind_error (check_out_of_range_error h)]

theorem ctor_ok {c : Int} (hc : 0 ≤ c) :
    ctor c = Except.ok { size_ := 0, capacity_ := c, data_ := List.replicate c.toNat 0 } := by
  have : ¬ c < 0 := by omega
  simp [ctor, new_chars, this]

/-- A run of `PushBack` calls on a list whose capacity stays an `int` throughout: every call
returns, the values land in order above the old elements, and the capacity reached is the
old one when the values fit and otherwise the old one plus ten for every started ten of
values that do not fit. -/
theorem PushBack_all_run (es : List CChar) : ∀ (l : ArrayList), 0 ≤ l.size_ → l.size_ ≤ l.capacity_ →
    (l.data_.length : Int) = l.capacity_ →
    (if l.size_ + es.length ≤ l.capacity_ then l.capacity_
      else l.capacity_ + 10 * ((l.size_ + es.length - l.capacity_ + 9) / 10)) ≤ 2147483647 →
    ∃ l', PushBack_all es l = (Except.ok (), l')
      ∧ l'.size_ = l.size_ + es.length
      ∧ l'.size_ ≤ l'.capacity_
      ∧ (l'.data_.length : Int) = l'.capacity_
      ∧ (∀ k : Int, k < l.size_ → slot l'.data_ k = slot l.data_ k)
      ∧ (∀ (i : Nat) (h : i < es.length), slot l'.data_ (l.size_ + i) = some es[i])
      ∧ l'.capacity_ = (if l.size_ + es.length ≤ l.capacity_ then l.capacity_
          else l.capacity_ + 10 * ((l.size_ + es.length - l.capacity_ + 9) / 10))
      ∧ l'.stray = l.stray := by
  induction es with
  | nil =>
    intro l _ h1 h2 _
    refine ⟨l, rfl, by simp, h1, h2, fun _ _ => rfl, fun i h => absurd h (by simp), ?_, rfl⟩
    rw [if_pos (by simpa using h1)]
  | cons e es ih =>
    intro l h0 h1 h2 hb
    rw [List.length_cons] at hb
    push_cast at hb
    have h3 : l.capacity_ ≤ 2147483647 := by
      split_ifs at hb <;> omega
    have h4 : l.size_ = l.capacity_ → l.capacity_ ≤ 2147483637 := by
      intro hfull
      split_ifs at hb <;> omega
    obtain ⟨l1, hp, hsz, hcap, hlen, hv, hk, hstr⟩ := PushBack_run l e h0 h1 h2 h3 h4
    have hle : l1.size_ ≤ l1.capacity_ := by
      rw [hsz, hcap]; split <;> omega
    have hF : (if l1.size_ + es.length ≤ l1.capacity_ then l1.capacity_
        else l1.capacity_ + 10 * ((l1.size_ + es.length - l1.capacity_ + 9) / 10))
        = (if l.size_ + ((es.length : Int) + 1) ≤ l.capacity_ then l.capacity_
            else l.capacity_ + 10 * ((l.size_ + ((es.length : Int) + 1) - l.capacity_ + 9) / 10)) := by
      rw [hsz, hcap]
      split_ifs <;> omega
    obtain ⟨l', hr, hsz', hle', hlen', hk', hes, hcap', hstr'⟩ := ih l1 (by omega) hle hlen
      (by rw [hF]; exact hb)
    refine ⟨l', ?_, ?_, hle', hlen', ?_, ?_, ?_, by rw [hstr', hstr]⟩
    · show (PushBack e >>= fun _ => PushBack_all es) l = _
      rw [Exec.bind_ok hp]; exact hr
    · rw [hsz', hsz, List.length_cons]; push_cast; omega
    · intro k hlt
      rw [hk' k (by omega), hk k hlt]
    · intro i hi
      cases i with
      | zero =>
        simp only [Nat.cast_zero, add_zero, List.getElem_cons_zero]
        rw [hk' l.size_ (by omega), hv]
      | succ j =>
        have hj : j < es.length := by simpa using hi
        have := hes j hj
        rw [hsz] at this
        simp only [List.getElem_cons_succ]
        rw [← this]
        congr 1
        push_cast
        omega
    · rw [hcap', hF, List.length_cons]
      push_cast
      rfl

/-- C1, as amended: for every state with `0 ≤ size_ ≤ capacity_ ≤ INT_MAX` whose buffer has
`capacity_` slots, and with `capacity_ ≤ INT_MAX - 10` when the buffer is full, and every
`v`, `PushBack(v)` returns, `GetSize()` is then the old size plus 1, `Get(old size)` returns
`v`, and `Get(i)` returns what it returned before for every `0 ≤ i < old size`.  And a list
constructed with a capacity `c ≥ 0` and then given `PushBack(e0)`, ..., `PushBack(en-1)`
satisfies `Get(i) == e_i` for every `i < n`, provided the capacity this takes, `c` when
`n ≤ c` and `c + 10 * ⌈(n - c) / 10⌉` otherwise, is at most `INT_MAX`. -/
theorem PushBack_appends (l : ArrayList) (v : CChar) (c : Int) (es : List CChar)
    (h0 : 0 ≤ l.size_) (h1 : l.size_ ≤ l.capacity_) (h2 : (l.data_.length : Int) = l.capacity_)
    (h3 : l.capacity_ ≤ 2147483647) (h4 : l.size_ = l.capacity_ → l.capacity_ ≤ 2147483637)
    (hc : 0 ≤ c)
    (hn : (if (es.length : Int) ≤ c then c
            else c + 10 * (((es.length : Int) - c + 9) / 10)) ≤ 2147483647) :
    (∃ l', PushBack v l = (Except.ok (), l')
        ∧ GetSize l' = (Except.ok (l.size_ + 1), l')
        ∧ Get l.size_ l' = (Except.ok v, l')
        ∧ ∀ i : Int, 0 ≤ i → i < l.size_ →
            ∃ x, Get i l = (Except.ok x, l) ∧ Get i l' = (Except.ok x, l'))
    ∧ (∃ l0 l', ctor c = Except.ok l0 ∧ PushBack_all es l0 = (Except.ok (), l')
        ∧ ∀ (i : Nat) (h : i < es.length), Get i l' = (Except.ok es[i], l')) := by
  constructor
  · obtain ⟨l', hp, hsz, _, _, hv, hk, _⟩ := PushBack_run l v h0 h1 h2 h3 h4
    refine ⟨l', hp, ?_, Get_ok (by omega) hv, ?_⟩
    · simp [GetSize, hsz]
    · intro i hi0 hi1
      obtain ⟨x, hx⟩ := slot_eq_some (d := l.data_) hi0 (by omega)
      exact ⟨x, Get_ok hi1 hx, Get_ok (by omega) (by rw [hk i hi1, hx])⟩
  · obtain ⟨l', hr, hsz, _, _, _, hes, _⟩ := PushBack_all_run es
      { size_ := 0, capacity_ := c, data_ := List.replicate c.toNat 0 } (le_refl _) hc
      (by simp; omega) (by simpa using hn)
    refine ⟨_, l', ctor_ok hc, hr, ?_⟩
    intro i hi
    have := hes i hi
    simp only [zero_add] at this hsz
    exact Get_ok (by omega) this

/-- C1, as stated, fails on a full list of `INT_MAX` elements: the state satisfies
`0 ≤ size_ ≤ capacity_` with a buffer of `capacity_` slots, and `PushBack('a')` ends at the
`assert` of `resize`, because `capacity_ + 10` does not fit an `int`; `size_` stays as it
was. -/
theorem PushBack_at_largest_capacity :
    Invariant { size_ := 2147483647, capacity_ := 2147483647,
                data_ := List.replicate 2147483647 0 }
    ∧ PushBack 97 { size_ := 2147483647, capacity_ := 2147483647,
                    data_ := List.replicate 2147483647 0 }
        = (Except.error Fault.assertion_failed,
            { size_ := 2147483647, capacity_ := 2147483647,
              data_ := List.replicate 2147483647 0 }) :=
  ⟨⟨by decide, le_refl _, by simp only [List.length_replicate]; rfl⟩,
    PushBack_overflow _ 97 rfl (by decide) (by decide)⟩

/-! ### `Insert` -/

/-- The growth step of `Insert`, followed by the rest `f` of the function body. -/
theorem grow_run (s : ArrayList) (h0 : 0 ≤ s.size_)
    (h2 : (s.data_.length : Int) = s.capacity_)
    (h4 : s.size_ = s.capacity_ → s.capacity_ ≤ 2147483637) :
    ∃ s1, s1.size_ = s.size_
      ∧ s1.capacity_ = (if s.size_ = s.capacity_ then s.capacity_ + 10 else s.capacity_)
      ∧ (s1.data_.length : Int) = s1.capacity_
      ∧ (∀ k : Int, k < s.size_ → slot s1.data_ k = slot s.data_ k)
      ∧ s1.stray = s.stray
      ∧ ∀ {β : Type} (f : PUnit → Exec ArrayList β),
          (if s.size_ = s.capacity_ then
              resize (to_int (s.capacity_ + kCapacityIncreaseCoefficient)) >>= f
            else pure PUnit.unit >>= f) s = f PUnit.unit s1 := by
  by_cases hfull : s.size_ = s.capacity_
  · obtain ⟨d, hr, hlen, hs⟩ := resize_full h0 hfull h2 (h4 hfull)
    refine ⟨{ s with capacity_ := s.capacity_ + 10, data_ := d }, rfl, ?_, hlen, hs, rfl, ?_⟩
    · simp [hfull]
    · intro β f
      rw [if_pos hfull, Exec.bind_ok hr]
  · refine ⟨s, rfl, by simp [hfull], h2, fun _ _ => rfl, rfl, ?_⟩
    intro β f
    rw [if_neg hfull]
    rfl

theorem Insert_loop_run (index : Int) (n : Nat) : ∀ (i : Int) (s : ArrayList),
    0 ≤ index → index ≤ i → i < s.data_.length → n = (i - index).toNat →
    ∃ d, Insert_loop index n i s = (Except.ok (), { s with data_ := d })
      ∧ d.length = s.data_.length
      ∧ ∀ k : Int, slot d k = if index < k ∧ k ≤ i then slot s.data_ (k - 1) else slot s.data_ k := by
  induction n with
  | zero =>
    intro i s _ _ _ hn
    refine ⟨s.data_, rfl, rfl, ?_⟩
    intro k
    rw [if_neg (by omega)]
  | succ n ih =>
    intro i s hidx hle hlt hn
    have hgt : i > index := by omega
    obtain ⟨x, hx⟩ := slot_eq_some (d := s.data_) (i := i - 1) (by omega) (by omega)
    have hst := store_ok (s := s) x (i := i) (by omega) hlt
    obtain ⟨d, hr, hlen, hd⟩ := ih (i - 1) { s with data_ := s.data_.set i.toNat x } hidx (by omega)
      (by simp only [List.length_set]; omega) (by omega)
    refine ⟨d, ?_, ?_, ?_⟩
    · rw [Insert_loop, if_pos hgt, Exec.bind_ok (load_ok hx), Exec.bind_ok hst]
      exact hr
    · simpa using hlen
    · intro k
      rw [hd k]
      simp only
      by_cases hk : index < k ∧ k ≤ i - 1
      · rw [if_pos hk, if_pos (by omega), slot_set (by omega) hlt, if_neg (by omega)]
      · rw [if_neg hk, slot_set (by omega) hlt]
        by_cases hki : k = i
        · rw [if_pos hki, if_pos (by omega), hki, hx]
        · rw [if_neg hki, if_neg (by omega)]

theorem Insert_run (l : ArrayList) (index : Int) (v : CChar) (h0 : 0 ≤ index)
    (hi : index < l.size_) (h1 : l.size_ ≤ l.capacity_) (h2 : (l.data_.length : Int) = l.capacity_)
    (h3 : l.capacity_ ≤ 2147483647) (h4 : l.size_ = l.capacity_ → l.capacity_ ≤ 2147483637) :
    ∃ l', Insert index v l = (Except.ok (), l')
      ∧ l'.size_ = l.size_ + 1
      ∧ l'.capacity_ = (if l.size_ = l.capacity_ then l.capacity_ + 10 else l.capacity_)
      ∧ (l'.data_.length : Int) = l'.capacity_
      ∧ slot l'.data_ index = some v
      ∧ (∀ k : Int, k < index → slot l'.data_ k = slot l.data_ k)
      ∧ (∀ k : Int, index ≤ k → k < l.size_ → slot l'.data_ (k + 1) = slot l.data_ k)
      ∧ l'.stray = l.stray := by
  obtain ⟨s1, hsz, hcap, hlen, hs, hstr, hg⟩ := grow_run l (by omega) h2 h4
  have hlt : l.size_ < s1.data_.length := by
    rw [hlen, hcap]; split <;> omega
  have hti : to_int (s1.size_ + 1) = s1.size_ + 1 := by
    rw [hsz]
    by_cases hfull : l.size_ = l.capacity_
    · have := h4 hfull
      exact to_int_of_range (by omega) (by omega)
    · exact to_int_of_range (by omega) (by omega)
  obtain ⟨d, hr, hdlen, hd⟩ := Insert_loop_run index (s1.size_ - index).toNat s1.size_ s1 h0
    (by omega) (by omega) rfl
  have hst := store_ok (s := { s1 with size_ := s1.size_ + 1, data_ := d }) v
    (i := index) h0 (by simp only; omega)
  refine ⟨{ s1 with size_ := s1.size_ + 1, data_ := d.set index.toNat v },
    ?_, by simp [hsz], hcap, by simp; omega, ?_, ?_, ?_, hstr⟩
  · unfold Insert
    rw [Exec.bind_ok (check_out_of_range_ok hi)]
    simp only [Exec.read_bind]
    rw [hg]
    simp only [Exec.read_bind]
    rw [Exec.bind_ok hr]
    simp only [Exec.update_bind, hti]
    exact hst
  · simp only
    rw [slot_set h0 (by omega)]; simp
  · intro k hk
    simp only
    rw [slot_set h0 (by omega), if_neg (by omega), hd k, if_neg (by omega)]
    exact hs k (by omega)
  · intro k hk1 hk2
    simp only
    rw [slot_set h0 (by omega), if_neg (by omega), hd (k + 1), if_pos (by omega)]
    simp only [add_sub_cancel_right]
    exact hs k hk2

/-- The call `Insert(index, v)` with `index < size_` on a full list whose capacity is within
ten of the largest `int` ends at the `assert` of `resize`, with the state as it was. -/
theorem Insert_overflow (l : ArrayList) (index : Int) (v : CChar) (hi : index < l.size_)
    (h1 : l.size_ = l.capacity_) (h2 : 2147483637 < l.capacity_)
    (h3 : l.capacity_ ≤ 2147483647) :
    Insert index v l = (Except.error Fault.assertion_failed, l) := by
  unfold Insert
  rw [Exec.bind_ok (check_out_of_range_ok hi)]
  simp only [Exec.read_bind, if_pos h1]
  rw [Exec.bind_error (resize_overflow h2 h3)]

/-- C2, as amended: for every state with `0 ≤ size_ ≤ capacity_ ≤ INT_MAX` whose buffer has
`capacity_` slots, and with `capacity_ ≤ INT_MAX - 10` when the buffer is full, every index
`0 ≤ i < size_` and every `v`, `Insert(i, v)` returns, `GetSize()` is then the old size plus
1, `Get(i) == v`, `Get(j)` is what it was for every `0 ≤ j < i`, and `Get(j + 1)` is the old
`Get(j)` for every `i ≤ j < old size`. -/
theorem Insert_shifts_right (l : ArrayList) (i : Int) (v : CChar)
    (h1 : l.size_ ≤ l.capacity_) (h2 : (l.data_.length : Int) = l.capacity_)
    (h3 : l.capacity_ ≤ 2147483647) (h4 : l.size_ = l.capacity_ → l.capacity_ ≤ 2147483637)
    (hi0 : 0 ≤ i) (hi1 : i < l.size_) :
    ∃ l', Insert i v l = (Except.ok (), l')
      ∧ GetSize l' = (Except.ok (l.size_ + 1), l')
      ∧ Get i l' = (Except.ok v, l')
      ∧ (∀ j : Int, 0 ≤ j → j < i →
          ∃ x, Get j l = (Except.ok x, l) ∧ Get j l' = (Except.ok x, l'))
      ∧ ∀ j : Int, i ≤ j → j < l.size_ →
          ∃ x, Get j l = (Except.ok x, l) ∧ Get (j + 1) l' = (Except.ok x, l') := by
  obtain ⟨l', hp, hsz, _, _, hv, hlo, hhi, _⟩ := Insert_run l i v hi0 hi1 h1 h2 h3 h4
  refine ⟨l', hp, by simp [GetSize, hsz], Get_ok (by omega) hv, ?_, ?_⟩
  · intro j hj0 hj1
    obtain ⟨x, hx⟩ := slot_eq_some (d := l.data_) hj0 (by omega)
    exact ⟨x, Get_ok (by omega) hx, Get_ok (by omega) (by rw [hlo j hj1, hx])⟩
  · intro j hj0 hj1
    obtain ⟨x, hx⟩ := slot_eq_some (d := l.data_) (i := j) (by omega) (by omega)
    exact ⟨x, Get_ok hj1 hx, Get_ok (by omega) (by rw [hhi j hj0 hj1, hx])⟩

/-- C2, as stated, fails on a full list of `INT_MAX` elements: the state satisfies
`0 ≤ size_ ≤ capacity_` with a buffer of `capacity_` slots, the index 0 is valid, and
`Insert(0, 'a')` ends at the `assert` of `resize`, because `capacity_ + 10` does not fit an
`int`; nothing is inserted. -/
theorem Insert_at_largest_capacity :
    Invariant { size_ := 2147483647, capacity_ := 2147483647,
                data_ := List.replicate 2147483647 0 }
    ∧ Insert 0 97 { size_ := 2147483647, capacity_ := 2147483647,
                    data_ := List.replicate 2147483647 0 }
        = (Except.error Fault.assertion_failed,
            { size_ := 2147483647, capacity_ := 2147483647,
              data_ := List.replicate 2147483647 0 }) :=
  ⟨⟨by decide, le_refl _, by simp only [List.length_replicate]; rfl⟩,
    Insert_overflow _ 0 97 (by decide) rfl (by decide) (by decide)⟩

/-! ### `Remove` -/

/-- The shift loop of `Remove`, entered at `0 ≤ i ≤ size_` on a list with `size_` at most the
number of slots: it returns, keeps the slots below `i` and from `size_` on, and moves each
slot of `(i, size_)` one place down.  Its last iteration reads `data_[size_]`; on a full
buffer that index is outside the buffer, and the read is recorded in `stray`. -/
theorem Remove_loop_run (n : Nat) : ∀ (i : Int) (s : ArrayList),
    0 ≤ i → i ≤ s.size_ → s.size_ ≤ s.data_.length → n = (s.size_ - i).toNat →
    ∃ s', Remove_loop n i s = (Except.ok (), s')
      ∧ s'.size_ = s.size_ ∧ s'.capacity_ = s.capacity_
      ∧ s'.data_.length = s.data_.length
      ∧ (∀ k : Int, k < i → slot s'.data_ k = slot s.data_ k)
      ∧ (∀ k : Int, i ≤ k → k < s.size_ - 1 → slot s'.data_ k = slot s.data_ (k + 1))
      ∧ (∀ k : Int, s.size_ ≤ k → slot s'.data_ k = slot s.data_ k)
      ∧ s'.stray = (if i < s.size_ ∧ s.size_ = s.data_.length then s.size_ :: s.stray
          else s.stray) := by
  induction n with
  | zero =>
    intro i s _ _ _ hn
    refine ⟨s, rfl, rfl, rfl, rfl, fun _ _ => rfl, fun k _ _ => by omega, fun _ _ => rfl, ?_⟩
    rw [if_neg (by omega)]
  | succ n ih =>
    intro i s hi0 hi1 hlen hn
    have hlt : i < s.size_ := by omega
    by_cases hin : i + 1 < s.data_.length
    · obtain ⟨x, hx⟩ := slot_eq_some (d := s.data_) (i := i + 1) (by omega) hin
      have hst := store_ok (s := s) x (i := i) hi0 (by omega)
      obtain ⟨s', hr, e1, e2, e3, hlo, hmid, hhi, hstr⟩ :=
        ih (i + 1) { s with data_ := s.data_.set i.toNat x } (by omega)
          (by simp only; omega) (by simp only [List.length_set]; omega) (by simp only; omega)
      simp only [List.length_set] at e3 hstr
      refine ⟨s', ?_, e1, e2, e3, ?_, ?_, ?_, ?_⟩
      · rw [Remove_loop, Exec.read_bind, if_pos hlt, Exec.bind_ok (load_ok hx),
          Exec.bind_ok hst]
        exact hr
      · intro k hk
        rw [hlo k (by omega)]
        simp only
        rw [slot_set hi0 (by omega), if_neg (by omega)]
      · intro k hk1 hk2
        by_cases hki : k = i
        · rw [hki, hlo i (by omega)]
          simp only
          rw [slot_set hi0 (by omega), if_pos rfl, hx]
        · rw [hmid k (by omega) hk2]
          simp only
          rw [slot_set hi0 (by omega), if_neg (by omega)]
      · intro k hk
        rw [hhi k hk]
        simp only
        rw [slot_set hi0 (by omega), if_neg (by omega)]
      · rw [hstr]
        by_cases hfull : s.size_ = (s.data_.length : Int)
        · rw [if_pos ⟨by omega, hfull⟩, if_pos ⟨hlt, hfull⟩]
        · rw [if_neg (fun h => hfull h.2), if_neg (fun h => hfull h.2)]
    · have hlast : i + 1 = s.size_ := by omega
      have hfull : s.size_ = (s.data_.length : Int) := by omega
      have hnone : slot s.data_ (i + 1) = none := slot_eq_none (Or.inr (by omega))
      have hst := store_ok (s := { s with stray := (i + 1) :: s.stray }) (peek s.outside (i + 1))
        (i := i) hi0 (by simp only; omega)
      obtain ⟨s', hr, e1, e2, e3, hlo, _, hhi, hstr⟩ :=
        ih (i + 1) { s with stray := (i + 1) :: s.stray,
                            data_ := s.data_.set i.toNat (peek s.outside (i + 1)) } (by omega)
          (by simp only; omega) (by simp only [List.length_set]; omega) (by simp only; omega)
      simp only [List.length_set] at e3 hstr
      refine ⟨s', ?_, e1, e2, e3, ?_, ?_, ?_, ?_⟩
      · rw [Remove_loop, Exec.read_bind, if_pos hlt, Exec.bind_ok (load_stray hnone),
          Exec.bind_ok hst]
        exact hr
      · intro k hk
        rw [hlo k (by omega)]
        simp only
        rw [slot_set hi0 (by omega), if_neg (by omega)]
      · intro k hk1 hk2
        omega
      · intro k hk
        rw [hhi k hk]
        simp only
        rw [slot_set hi0 (by omega), if_neg (by omega)]
      · rw [hstr, if_neg (by omega), if_pos ⟨hlt, hfull⟩, hlast]

/-- The call `Remove(index)` with `0 ≤ index < size_` on a list with `size_ ≤ capacity_`
and a buffer of `capacity_` slots: it returns the element at `index`, decrements `size_`,
keeps the slots below `index` and moves each slot of `(index, size_)` one place down.  On a
full list it has read `data_[capacity_]`. -/
theorem Remove_run (l : ArrayList) (index : Int) (h0 : 0 ≤ index) (hi : index < l.size_)
    (h1 : l.size_ ≤ l.capacity_) (h2 : (l.data_.length : Int) = l.capacity_) :
    ∃ x l', Remove index l = (Except.ok x, l')
      ∧ slot l.data_ index = some x
      ∧ l'.size_ = l.size_ - 1
      ∧ l'.capacity_ = l.capacity_
      ∧ (l'.data_.length : Int) = l'.capacity_
      ∧ (∀ k : Int, k < index → slot l'.data_ k = slot l.data_ k)
      ∧ (∀ k : Int, index ≤ k → k < l.size_ - 1 → slot l'.data_ k = slot l.data_ (k + 1))
      ∧ l'.stray = (if l.size_ = l.capacity_ then l.capacity_ :: l.stray else l.stray) := by
  obtain ⟨x, hx⟩ := slot_eq_some (d := l.data_) h0 (by omega)
  obtain ⟨s', hr, e1, e2, e3, hlo, hmid, _, hstr⟩ :=
    Remove_loop_run (l.size_ - index).toNat index l h0 (by omega) (by omega) rfl
  refine ⟨x, { s' with size_ := s'.size_ - 1 }, ?_, hx, by simp only; omega, e2,
    by simp only; omega, hlo, hmid, ?_⟩
  · unfold Remove
    rw [Exec.bind_ok (check_out_of_range_ok hi), Exec.bind_ok (load_ok hx), Exec.read_bind,
      Exec.bind_ok hr]
    rfl
  · simp only
    rw [hstr]
    by_cases hfull : l.size_ = l.capacity_
    · rw [if_pos ⟨hi, by omega⟩, if_pos hfull, hfull]
    · rw [if_neg (fun h => hfull (by omega)), if_neg hfull]

/-- C3: for every state with `0 ≤ size_ ≤ capacity_` whose buffer has `capacity_` slots (a
full list included) and every index `0 ≤ i < size_`, `Remove(i)` returns the value `Get(i)`
returned before the call, `GetSize()` is then the old size minus 1, `Get(j)` is what it was
for every `0 ≤ j < i`, and `Get(j)` is the old `Get(j + 1)` for every `i ≤ j < old size - 1`.
From `ArrayList(10)`, `PushBack` of `'a'`, `'b'`, `'c'` and then `Remove(0)` returns `'a'`,
and then `Get(0) == 'b'` and `GetSize() == 2`. -/
theorem Remove_shifts_left (l : ArrayList) (i : Int)
    (h1 : l.size_ ≤ l.capacity_) (h2 : (l.data_.length : Int) = l.capacity_)
    (hi0 : 0 ≤ i) (hi1 : i < l.size_) :
    (∃ x l', Remove i l = (Except.ok x, l')
      ∧ Get i l = (Except.ok x, l)
      ∧ GetSize l' = (Except.ok (l.size_ - 1), l')
      ∧ (∀ j : Int, 0 ≤ j → j < i →
          ∃ y, Get j l = (Except.ok y, l) ∧ Get j l' = (Except.ok y, l'))
      ∧ ∀ j : Int, i ≤ j → j < l.size_ - 1 →
          ∃ y, Get (j + 1) l = (Except.ok y, l) ∧ Get j l' = (Except.ok y, l'))
    ∧ ctor 10 = Except.ok { size_ := 0, capacity_ := 10, data_ := [0, 0, 0, 0, 0, 0, 0, 0, 0, 0] }
    ∧ PushBack_all [97, 98, 99] { size_ := 0, capacity_ := 10, data_ := [0, 0, 0, 0, 0, 0, 0, 0, 0, 0] }
        = (Except.ok (), { size_ := 3, capacity_ := 10, data_ := [97, 98, 99, 0, 0, 0, 0, 0, 0, 0] })
    ∧ Remove 0 { size_ := 3, capacity_ := 10, data_ := [97, 98, 99, 0, 0, 0, 0, 0, 0, 0] }
        = (Except.ok 97, { size_ := 2, capacity_ := 10, data_ := [98, 99, 0, 0, 0, 0, 0, 0, 0, 0] })
    ∧ Get 0 { size_ := 2, capacity_ := 10, data_ := [98, 99, 0, 0, 0, 0, 0, 0, 0, 0] }
        = (Except.ok 98, { size_ := 2, capacity_ := 10, data_ := [98, 99, 0, 0, 0, 0, 0, 0, 0, 0] })
    ∧ GetSize { size_ := 2, capacity_ := 10, data_ := [98, 99, 0, 0, 0, 0, 0, 0, 0, 0] }
        = (Except.ok 2, { size_ := 2, capacity_ := 10, data_ := [98, 99, 0, 0, 0, 0, 0, 0, 0, 0] }) := by
  refine ⟨?_, by decide, by decide, by decide, by decide, by decide⟩
  obtain ⟨x, l', hr, hx, hsz, _, _, hlo, hmid, _⟩ := Remove_run l i hi0 hi1 h1 h2
  refine ⟨x, l', hr, Get_ok hi1 hx, by simp [GetSize, hsz], ?_, ?_⟩
  · intro j hj0 hj1
    obtain ⟨y, hy⟩ := slot_eq_some (d := l.data_) hj0 (by omega)
    exact ⟨y, Get_ok (by omega) hy, Get_ok (by omega) (by rw [hlo j hj1, hy])⟩
  · intro j hj0 hj1
    obtain ⟨y, hy⟩ := slot_eq_some (d := l.data_) (i := j + 1) (by omega) (by omega)
    exact ⟨y, Get_ok (by omega) hy, Get_ok (by omega) (by rw [hmid j hj0 hj1, hy])⟩

/-! ### `Remove` on a full list -/

/-- C17 (the code departs from the claim): for every full list, `size_ == capacity_` with a
buffer of `capacity_` slots, and every index `0 ≤ i < size_`, the slot `data_[capacity_]` is
not a slot of the buffer, the iteration of the shift loop of `Remove` with counter
`size_ - 1` reads it, and `Remove(i)` has, when it returns, read `data_[capacity_]`, an index
outside `[0, capacity_)`. -/
theorem Remove_reads_slot_at_capacity (l : ArrayList) (i : Int)
    (h1 : l.size_ = l.capacity_) (h2 : (l.data_.length : Int) = l.capacity_)
    (hi0 : 0 ≤ i) (hi1 : i < l.size_) :
    slot l.data_ l.capacity_ = none
    ∧ (∀ s : ArrayList, s.size_ = l.size_ → s.data_.length = l.data_.length →
        (Remove_loop 1 (l.size_ - 1) s).2.stray = l.capacity_ :: s.stray)
    ∧ ∃ x l', Remove i l = (Except.ok x, l') ∧ l'.stray = l.capacity_ :: l.stray := by
  refine ⟨slot_eq_none (Or.inr (by omega)), ?_, ?_⟩
  · intro s hs hlen
    obtain ⟨s', hr, _, _, _, _, _, _, hstr⟩ := Remove_loop_run 1 (l.size_ - 1) s (by omega)
      (by omega) (by omega) (by omega)
    rw [hr]
    simp only
    rw [hstr, if_pos ⟨by omega, by omega⟩, hs, h1]
  · obtain ⟨x, l', hr, _, _, _, _, _, _, hstr⟩ := Remove_run l i hi0 hi1 (by omega) h2
    exact ⟨x, l', hr, by rw [hstr, if_pos h1]⟩

/-! ### Index validation -/

/-- C4: for every state and every index `i ≥ size_`, each of `Get(i)`, `Insert(i, v)` and
`Remove(i)` throws `std::out_of_range` with the message `"index is out of range: "` followed
by `size_`, and leaves `size_`, `capacity_` and the buffer as they were. -/
theorem index_not_below_size_is_rejected (l : ArrayList) (i : Int) (v : CChar)
    (h : l.size_ ≤ i) :
    Get i l
        = (Except.error (Fault.out_of_range ("index is out of range: " ++ toString l.size_)), l)
    ∧ Insert i v l
        = (Except.error (Fault.out_of_range ("index is out of range: " ++ toString l.size_)), l)
    ∧ Remove i l
        = (Except.error (Fault.out_of_range ("index is out of range: " ++ toString l.size_)), l) := by
  refine ⟨Get_error h, ?_, ?_⟩
  · unfold Insert
    rw [Exec.bind_error (check_out_of_range_error h)]
  · unfold Remove
    rw [Exec.bind_error (check_out_of_range_error h)]

/-- C5 (the code departs from the claim): `check_out_of_range` tests `index >= size_` only.
On the list built by `ArrayList(10)` and `PushBack('a')`, the index `-1` passes the check in
each of `Get(-1)`, `Insert(-1, 'b')` and `Remove(-1)`; no `std::out_of_range` is thrown, each
call accesses `data_[-1]`, outside the buffer, and returns.  `Get(-1)` returns the byte
before the buffer, which no write has set and which reads as `0` here.  `Insert(-1, 'b')` has moved `'a'` to `data_[1]`, copied the byte before
the buffer to `data_[0]`, written `'b'` before the buffer and left `size_` at 2.
`Remove(-1)` has copied `'a'` to the byte before the buffer, moved `data_[1]` to `data_[0]`
and left `size_` at 0. -/
theorem negative_index_passes_the_check :
    check_out_of_range (-1) { size_ := 1, capacity_ := 10, data_ := [97, 0, 0, 0, 0, 0, 0, 0, 0, 0] }
        = (Except.ok (), { size_ := 1, capacity_ := 10, data_ := [97, 0, 0, 0, 0, 0, 0, 0, 0, 0] })
    ∧ Get (-1) { size_ := 1, capacity_ := 10, data_ := [97, 0, 0, 0, 0, 0, 0, 0, 0, 0] }
        = (Except.ok 0,
            { size_ := 1, capacity_ := 10, data_ := [97, 0, 0, 0, 0, 0, 0, 0, 0, 0],
              stray := [-1] })
    ∧ Insert (-1) 98 { size_ := 1, capacity_ := 10, data_ := [97, 0, 0, 0, 0, 0, 0, 0, 0, 0] }
        = (Except.ok (),
            { size_ := 2, capacity_ := 10, data_ := [0, 97, 0, 0, 0, 0, 0, 0, 0, 0],
              outside := [(-1, 98)], stray := [-1, -1] })
    ∧ Remove (-1) { size_ := 1, capacity_ := 10, data_ := [97, 0, 0, 0, 0, 0, 0, 0, 0, 0] }
        = (Except.ok 0,
            { size_ := 0, capacity_ := 10, data_ := [0, 0, 0, 0, 0, 0, 0, 0, 0, 0],
              outside := [(-1, 97)], stray := [-1, -1] }) := by
  decide

/-! ### `Clear` -/

/-- C8: for every state, `Clear()` returns, after it `GetSize() == 0` and `IsEmpty()` is
true, `capacity_` and the whole buffer are what they were, and `Get(0)` throws
`std::out_of_range`. -/
theorem Clear_resets_size_only (l : ArrayList) :
    ∃ l', Clear l = (Except.ok (), l')
      ∧ GetSize l' = (Except.ok 0, l')
      ∧ IsEmpty l' = (Except.ok true, l')
      ∧ GetCapacity l' = (Except.ok l.capacity_, l')
      ∧ l'.capacity_ = l.capacity_
      ∧ l'.data_ = l.data_
      ∧ Get 0 l' = (Except.error (Fault.out_of_range "index is out of range: 0"), l') := by
  refine ⟨{ l with size_ := 0 }, rfl, rfl, rfl, rfl, rfl, rfl, ?_⟩
  exact Get_error (s := { l with size_ := 0 }) (le_refl _)

/-! ### `IndexOf` and `Contains` -/

theorem IndexOf_loop_run (v : CChar) (n : Nat) : ∀ (i : Int) (s : ArrayList),
    0 ≤ i → s.size_ ≤ s.data_.length → n = (s.size_ - i).toNat →
    ∃ r, IndexOf_loop v n i s = (Except.ok r, s)
      ∧ ((r = -1 ∧ ∀ k : Int, i ≤ k → k < s.size_ → slot s.data_ k ≠ some v)
        ∨ (i ≤ r ∧ r < s.size_ ∧ slot s.data_ r = some v
            ∧ ∀ k : Int, i ≤ k → k < r → slot s.data_ k ≠ some v)) := by
  induction n with
  | zero =>
    intro i s _ _ hn
    exact ⟨-1, rfl, Or.inl ⟨rfl, fun k _ _ => by omega⟩⟩
  | succ n ih =>
    intro i s hi hle hn
    have hlt : i < s.size_ := by omega
    obtain ⟨x, hx⟩ := slot_eq_some (d := s.data_) hi (by omega)
    by_cases hxv : x = v
    · refine ⟨i, ?_, Or.inr ⟨le_refl _, hlt, by rw [hx, hxv], fun k _ _ => by omega⟩⟩
      rw [IndexOf_loop, Exec.read_bind, if_pos hlt, Exec.bind_ok (load_ok hx), if_pos hxv]
      rfl
    · obtain ⟨r, hr, hspec⟩ := ih (i + 1) s (by omega) hle (by omega)
      have hne : slot s.data_ i ≠ some v := by
        rw [hx]; intro h; exact hxv (Option.some.inj h)
      refine ⟨r, ?_, ?_⟩
      · rw [IndexOf_loop, Exec.read_bind, if_pos hlt, Exec.bind_ok (load_ok hx), if_neg hxv]
        exact hr
      · rcases hspec with ⟨h1, h2⟩ | ⟨h1, h2, h3, h4⟩
        · refine Or.inl ⟨h1, fun k hk1 hk2 => ?_⟩
          by_cases hki : k = i
          · rw [hki]; exact hne
          · exact h2 k (by omega) hk2
        · refine Or.inr ⟨by omega, h2, h3, fun k hk1 hk2 => ?_⟩
          by_cases hki : k = i
          · rw [hki]; exact hne
          · exact h4 k (by omega) hk2

theorem Contains_loop_run (v : CChar) (n : Nat) : ∀ (i : Int) (s : ArrayList),
    0 ≤ i → s.size_ ≤ s.data_.length → n = (s.size_ - i).toNat →
    ∃ b, Contains_loop v n i s = (Except.ok b, s)
      ∧ (b = true ↔ ∃ k : Int, i ≤ k ∧ k < s.size_ ∧ slot s.data_ k = some v) := by
  induction n with
  | zero =>
    intro i s _ _ hn
    refine ⟨false, rfl, ?_⟩
    constructor
    · intro h; cases h
    · rintro ⟨k, hk1, hk2, _⟩; omega
  | succ n ih =>
    intro i s hi hle hn
    have hlt : i < s.size_ := by omega
    obtain ⟨x, hx⟩ := slot_eq_some (d := s.data_) hi (by omega)
    by_cases hxv : v = x
    · refine ⟨true, ?_, ?_⟩
      · rw [Contains_loop, Exec.read_bind, if_pos hlt, Exec.bind_ok (load_ok hx), if_pos hxv]
        rfl
      · exact ⟨fun _ => ⟨i, le_refl _, hlt, by rw [hx, hxv]⟩, fun _ => rfl⟩
    · obtain ⟨b, hb, hspec⟩ := ih (i + 1) s (by omega) hle (by omega)
      refine ⟨b, ?_, ?_⟩
      · rw [Contains_loop, Exec.read_bind, if_pos hlt, Exec.bind_ok (load_ok hx), if_neg hxv]
        exact hb
      · rw [hspec]
        constructor
        · rintro ⟨k, hk1, hk2, hk3⟩
          exact ⟨k, by omega, hk2, hk3⟩
        · rintro ⟨k, hk1, hk2, hk3⟩
          have hki : k ≠ i := by
            intro h
            rw [h, hx] at hk3
            exact hxv (Option.some.inj hk3).symm
          exact ⟨k, by omega, hk2, hk3⟩

/-- Reading a slot of the buffer below `size_` through `Get`. -/
theorem Get_eq_iff {s : ArrayList} {k : Int} {v : CChar} (h0 : 0 ≤ k)
    (hlen : k < s.data_.length) (h : k < s.size_) :
    Get k s = (Except.ok v, s) ↔ slot s.data_ k = some v := by
  obtain ⟨c, hc⟩ := slot_eq_some (d := s.data_) h0 hlen
  constructor
  · intro hg
    rw [Get_ok h hc] at hg
    simp at hg
    rw [hc, hg]
  · exact Get_ok h

/-- C6: for every state whose `size_` does not exceed `capacity_`, the number of slots of
the buffer, and every `v`, `IndexOf(v)` returns and leaves the state as it was; the result is
`-1` exactly when no index in `[0, size_)` holds `v` (whatever the slots from `size_` on hold),
and otherwise it is the least index `i` in `[0, size_)` with `Get(i) == v`. -/
theorem IndexOf_least_index (l : ArrayList) (v : CChar)
    (h1 : l.size_ ≤ l.capacity_) (h2 : (l.data_.length : Int) = l.capacity_) :
    ∃ r, IndexOf v l = (Except.ok r, l)
      ∧ (r = -1 ↔ ∀ i : Int, 0 ≤ i → i < l.size_ → Get i l ≠ (Except.ok v, l))
      ∧ (r ≠ -1 → 0 ≤ r ∧ r < l.size_ ∧ Get r l = (Except.ok v, l)
          ∧ ∀ j : Int, 0 ≤ j → j < r → Get j l ≠ (Except.ok v, l)) := by
  obtain ⟨r, hr, hspec⟩ := IndexOf_loop_run v l.size_.toNat 0 l (le_refl _) (by omega) (by omega)
  refine ⟨r, hr, ?_, ?_⟩
  · constructor
    · intro hneg i hi0 hi1
      rcases hspec with ⟨_, hnone⟩ | ⟨hr0, _⟩
      · rw [Ne, Get_eq_iff hi0 (by omega) hi1]
        exact hnone i hi0 hi1
      · omega
    · intro hall
      rcases hspec with ⟨hneg, _⟩ | ⟨hr0, hr1, hv, _⟩
      · exact hneg
      · exact absurd (Get_ok hr1 hv) (hall r hr0 hr1)
  · intro hne
    rcases hspec with ⟨hneg, _⟩ | ⟨hr0, hr1, hv, hleast⟩
    · exact absurd hneg hne
    · refine ⟨hr0, hr1, Get_ok hr1 hv, fun j hj0 hj1 => ?_⟩
      rw [Ne, Get_eq_iff hj0 (by omega) (by omega)]
      exact hleast j hj0 hj1

/-- C7: for every state whose `size_` does not exceed `capacity_`, the number of slots of
the buffer, and every `v`, `Contains(v)` and `IndexOf(v)` both return and leave the state as
it was; `Contains(v)` is true if and only if `IndexOf(v) != -1`, if and only if some index `i`
in `[0, size_)` has `Get(i) == v`; on an empty list `Contains(v)` is false. -/
theorem Contains_agrees_with_IndexOf (l : ArrayList) (v : CChar)
    (h1 : l.size_ ≤ l.capacity_) (h2 : (l.data_.length : Int) = l.capacity_) :
    ∃ b r, Contains v l = (Except.ok b, l) ∧ IndexOf v l = (Except.ok r, l)
      ∧ (b = true ↔ r ≠ -1)
      ∧ (b = true ↔ ∃ i : Int, 0 ≤ i ∧ i < l.size_ ∧ Get i l = (Except.ok v, l))
      ∧ (l.size_ = 0 → b = false) := by
  obtain ⟨r, hr, hspec⟩ := IndexOf_loop_run v l.size_.toNat 0 l (le_refl _) (by omega) (by omega)
  obtain ⟨b, hb, hiff⟩ := Contains_loop_run v l.size_.toNat 0 l (le_refl _) (by omega) (by omega)
  refine ⟨b, r, hb, hr, ?_, ?_, ?_⟩
  · rw [hiff]
    constructor
    · rintro ⟨k, hk0, hk1, hk⟩
      rcases hspec with ⟨_, hnone⟩ | ⟨hr0, _⟩
      · exact absurd hk (hnone k hk0 hk1)
      · omega
    · intro hne
      rcases hspec with ⟨hneg, _⟩ | ⟨hr0, hr1, hv, _⟩
      · exact absurd hneg hne
      · exact ⟨r, hr0, hr1, hv⟩
  · rw [hiff]
    constructor
    · rintro ⟨k, hk0, hk1, hk⟩
      exact ⟨k, hk0, hk1, Get_ok hk1 hk⟩
    · rintro ⟨k, hk0, hk1, hk⟩
      exact ⟨k, hk0, hk1, (Get_eq_iff hk0 (by omega) hk1).mp hk⟩
  · intro hsz
    cases hbv : b with
    | false => rfl
    | true =>
      obtain ⟨k, hk0, hk1, _⟩ := hiff.mp hbv
      omega

/-! ### Capacity -/

theorem load_keeps_capacity (i : Int) (s : ArrayList) :
    (load i s).2.capacity_ = s.capacity_ := by
  unfold load
  split <;> rfl

theorem store_keeps_capacity (i : Int) (v : CChar) (s : ArrayList) :
    (store i v s).2.capacity_ = s.capacity_ := by
  unfold store
  split <;> rfl

theorem check_out_of_range_keeps_capacity (index : Int) (s : ArrayList) :
    (check_out_of_range index s).2.capacity_ = s.capacity_ := by
  unfold check_out_of_range
  rw [Exec.read_bind]
  split <;> rfl

theorem Remove_loop_keeps_capacity (n : Nat) : ∀ (i : Int) (s : ArrayList),
    (Remove_loop n i s).2.capacity_ = s.capacity_ := by
  induction n with
  | zero => intro i s; rfl
  | succ n ih =>
    intro i s
    rw [Remove_loop, Exec.read_bind]
    split
    · exact Exec.bind_keeps (fun t : ArrayList => t.capacity_) (load_keeps_capacity (i + 1))
        (fun x => Exec.bind_keeps (fun t : ArrayList => t.capacity_)
          (store_keeps_capacity i x) (fun _ => ih (i + 1))) s
    · rfl

theorem IndexOf_loop_keeps_capacity (v : CChar) (n : Nat) : ∀ (i : Int) (s : ArrayList),
    (IndexOf_loop v n i s).2.capacity_ = s.capacity_ := by
  induction n with
  | zero => intro i s; rfl
  | succ n ih =>
    intro i s
    rw [IndexOf_loop, Exec.read_bind]
    split
    · refine Exec.bind_keeps (fun t : ArrayList => t.capacity_) (load_keeps_capacity i)
        (fun x t => ?_) s
      split
      · rfl
      · exact ih (i + 1) t
    · rfl

theorem Contains_loop_keeps_capacity (v : CChar) (n : Nat) : ∀ (i : Int) (s : ArrayList),
    (Contains_loop v n i s).2.capacity_ = s.capacity_ := by
  induction n with
  | zero => intro i s; rfl
  | succ n ih =>
    intro i s
    rw [Contains_loop, Exec.read_bind]
    split
    · refine Exec.bind_keeps (fun t : ArrayList => t.capacity_) (load_keeps_capacity i)
        (fun x t => ?_) s
      split
      · rfl
      · exact ih (i + 1) t
    · rfl

theorem Remove_keeps_capacity (index : Int) (s : ArrayList) :
    (Remove index s).2.capacity_ = s.capacity_ := by
  revert s
  unfold Remove
  repeat' first
    | exact fun _ => rfl
    | exact load_keeps_capacity _
    | exact store_keeps_capacity _ _
    | exact check_out_of_range_keeps_capacity _
    | exact Remove_loop_keeps_capacity _ _
    | exact IndexOf_loop_keeps_capacity _ _ _
    | exact Contains_loop_keeps_capacity _ _ _
    | intro _
    | apply Exec.bind_keeps (fun t : ArrayList => t.capacity_)

theorem Get_keeps_capacity (index : Int) (s : ArrayList) :
    (Get index s).2.capacity_ = s.capacity_ := by
  revert s
  unfold Get
  repeat' first
    | exact fun _ => rfl
    | exact load_keeps_capacity _
    | exact store_keeps_capacity _ _
    | exact check_out_of_range_keeps_capacity _
    | exact Remove_loop_keeps_capacity _ _
    | exact IndexOf_loop_keeps_capacity _ _ _
    | exact Contains_loop_keeps_capacity _ _ _
    | intro _
    | apply Exec.bind_keeps (fun t : ArrayList => t.capacity_)

theorem IndexOf_keeps_capacity (v : CChar) (s : ArrayList) :
    (IndexOf v s).2.capacity_ = s.capacity_ := by
  revert s
  unfold IndexOf
  repeat' first
    | exact fun _ => rfl
    | exact load_keeps_capacity _
    | exact store_keeps_capacity _ _
    | exact check_out_of_range_keeps_capacity _
    | exact Remove_loop_keeps_capacity _ _
    | exact IndexOf_loop_keeps_capacity _ _ _
    | exact Contains_loop_keeps_capacity _ _ _
    | intro _
    | apply Exec.bind_keeps (fun t : ArrayList => t.capacity_)

theorem Contains_keeps_capacity (v : CChar) (s : ArrayList) :
    (Contains v s).2.capacity_ = s.capacity_ := by
  revert s
  unfold Contains
  repeat' first
    | exact fun _ => rfl
    | exact load_keeps_capacity _
    | exact store_keeps_capacity _ _
    | exact check_out_of_range_keeps_capacity _
    | exact Remove_loop_keeps_capacity _ _
    | exact IndexOf_loop_keeps_capacity _ _ _
    | exact Contains_loop_keeps_capacity _ _ _
    | intro _
    | apply Exec.bind_keeps (fun t : ArrayList => t.capacity_)

/-- C9, as amended: `PushBack(v)`, and `Insert(i, v)` with `0 ≤ i < size_`, on a state `l`
with `0 ≤ size_ ≤ capacity_ ≤ INT_MAX` whose buffer has `capacity_` slots, and with
`capacity_ ≤ INT_MAX - 10` when the buffer is full, leave `capacity_ + 10` as the capacity
when `size_ == capacity_` held before the call, and the old capacity otherwise.  On every
state `s` and for every argument, `Remove`, `Clear`, `Get`, `IndexOf`, `Contains`, and
`Insert` with an index `j ≥ size_`, leave `capacity_` as it was.  A list constructed with
capacity `c ≥ 0` and given `n` calls of `PushBack` has capacity `c` when `n ≤ c`, and
`c + 10 * ⌈(n - c) / 10⌉` otherwise, provided that value is at most `INT_MAX`.  (Nothing is
said about `Insert` with a negative index.) -/
theorem capacity_grows_by_ten_when_full (l s : ArrayList) (v : CChar) (i j k c : Int)
    (es : List CChar)
    (h0 : 0 ≤ l.size_) (h1 : l.size_ ≤ l.capacity_) (h2 : (l.data_.length : Int) = l.capacity_)
    (h3 : l.capacity_ ≤ 2147483647) (h4 : l.size_ = l.capacity_ → l.capacity_ ≤ 2147483637)
    (hc : 0 ≤ c)
    (hn : (if (es.length : Int) ≤ c then c
            else c + 10 * (((es.length : Int) - c + 9) / 10)) ≤ 2147483647) :
    (∃ l', PushBack v l = (Except.ok (), l')
        ∧ GetCapacity l'
            = (Except.ok (if l.size_ = l.capacity_ then l.capacity_ + 10 else l.capacity_), l'))
    ∧ (0 ≤ i → i < l.size_ → ∃ l', Insert i v l = (Except.ok (), l')
        ∧ GetCapacity l'
            = (Except.ok (if l.size_ = l.capacity_ then l.capacity_ + 10 else l.capacity_), l'))
    ∧ (Remove k s).2.capacity_ = s.capacity_
    ∧ (Clear s).2.capacity_ = s.capacity_
    ∧ (Get k s).2.capacity_ = s.capacity_
    ∧ (IndexOf v s).2.capacity_ = s.capacity_
    ∧ (Contains v s).2.capacity_ = s.capacity_
    ∧ (s.size_ ≤ j → (Insert j v s).2.capacity_ = s.capacity_)
    ∧ ∃ l0 l', ctor c = Except.ok l0 ∧ PushBack_all es l0 = (Except.ok (), l')
        ∧ GetCapacity l'
            = (Except.ok (if (es.length : Int) ≤ c then c
                else c + 10 * (((es.length : Int) - c + 9) / 10)), l') := by
  refine ⟨?_, ?_, Remove_keeps_capacity k s, rfl, Get_keeps_capacity k s,
    IndexOf_keeps_capacity v s, Contains_keeps_capacity v s, ?_, ?_⟩
  · obtain ⟨l', hp, _, hcap, _⟩ := PushBack_run l v h0 h1 h2 h3 h4
    exact ⟨l', hp, by simp [GetCapacity, hcap]⟩
  · intro hi0 hi1
    obtain ⟨l', hp, _, hcap, _⟩ := Insert_run l i v hi0 hi1 h1 h2 h3 h4
    exact ⟨l', hp, by simp [GetCapacity, hcap]⟩
  · intro hj
    unfold Insert
    rw [Exec.bind_error (check_out_of_range_error hj)]
  · obtain ⟨l', hr, _, _, _, _, _, hcap, _⟩ := PushBack_all_run es
      { size_ := 0, capacity_ := c, data_ := List.replicate c.toNat 0 } (le_refl _) hc
      (by simp; omega) (by simpa using hn)
    simp only [zero_add] at hcap
    exact ⟨_, l', ctor_ok hc, hr, by simp [GetCapacity, hcap]⟩

/-- C9, as stated, fails in two places.  On a full list of `INT_MAX` elements `PushBack('a')`
does not set the capacity to the old capacity plus 10: it ends at the `assert` of `resize`
with `capacity_` as it was.  And on the full list `'a', 'b'` of capacity 2, `Insert(-1, 'c')`,
whose index is not valid, passes the check, grows the buffer and returns with capacity 12. -/
theorem capacity_at_largest_capacity_and_negative_index :
    Invariant { size_ := 2147483647, capacity_ := 2147483647,
                data_ := List.replicate 2147483647 0 }
    ∧ (PushBack 97 { size_ := 2147483647, capacity_ := 2147483647,
                     data_ := List.replicate 2147483647 0 }).1
        = Except.error Fault.assertion_failed
    ∧ (PushBack 97 { size_ := 2147483647, capacity_ := 2147483647,
                     data_ := List.replicate 2147483647 0 }).2.capacity_ = 2147483647
    ∧ Invariant { size_ := 2, capacity_ := 2, data_ := [97, 98] }
    ∧ Insert (-1) 99 { size_ := 2, capacity_ := 2, data_ := [97, 98] }
        = (Except.ok (),
            { size_ := 3, capacity_ := 12, data_ := [0, 97, 98, 0, 0, 0, 0, 0, 0, 0, 0, 0],
              outside := [(-1, 99)], stray := [-1, -1] }) := by
  have h := PushBack_overflow
    { size_ := 2147483647, capacity_ := 2147483647, data_ := List.replicate 2147483647 0 }
    97 rfl (by decide) (by decide)
  refine ⟨⟨by decide, le_refl _, by simp only [List.length_replicate]; rfl⟩, by rw [h],
    by rw [h], by decide, by decide⟩

/-! ### The invariant `0 ≤ size_ ≤ capacity_` -/

theorem ctor_default_ok :
    ctor_default = Except.ok { size_ := 0, capacity_ := 10, data_ := List.replicate 10 0 } := by
  decide

/-- With an index that is not negative, and a capacity that is an `int`, each call that
changes a field ends in a state that satisfies the invariant. -/
theorem invariant_kept_without_negative_index (l : ArrayList) (v : CChar) (i : Int)
    (hl : Invariant l) (h3 : l.capacity_ ≤ 2147483647) (hi : 0 ≤ i) :
    Invariant (PushBack v l).2 ∧ Invariant (Insert i v l).2 ∧ Invariant (Remove i l).2
      ∧ Invariant (Clear l).2 := by
  obtain ⟨h0, h1, h2⟩ := hl
  refine ⟨?_, ?_, ?_, ⟨le_refl _, le_trans h0 h1, h2⟩⟩
  · by_cases hov : l.size_ = l.capacity_ ∧ 2147483637 < l.capacity_
    · rw [PushBack_overflow l v hov.1.symm hov.2 h3]
      exact ⟨h0, h1, h2⟩
    · obtain ⟨l', hp, hsz, hcap, hlen, _⟩ := PushBack_run l v h0 h1 h2 h3
        (fun hfull => by by_contra hc; exact hov ⟨hfull, by omega⟩)
      rw [hp]
      refine ⟨by simp only; omega, ?_, hlen⟩
      simp only
      rw [hsz, hcap]
      split <;> omega
  · by_cases hlt : i < l.size_
    · by_cases hov : l.size_ = l.capacity_ ∧ 2147483637 < l.capacity_
      · rw [Insert_overflow l i v hlt hov.1 hov.2 h3]
        exact ⟨h0, h1, h2⟩
      · obtain ⟨l', hp, hsz, hcap, hlen, _⟩ := Insert_run l i v hi hlt h1 h2 h3
          (fun hfull => by by_contra hc; exact hov ⟨hfull, by omega⟩)
        rw [hp]
        refine ⟨by simp only; omega, ?_, hlen⟩
        simp only
        rw [hsz, hcap]
        split <;> omega
    · unfold Insert
      rw [Exec.bind_error (check_out_of_range_error (by omega))]
      exact ⟨h0, h1, h2⟩
  · by_cases hlt : i < l.size_
    · obtain ⟨x, l', hr, _, hsz, hcap, hlen, _⟩ := Remove_run l i hi hlt h1 h2
      rw [hr]
      refine ⟨by simp only; omega, ?_, hlen⟩
      simp only
      omega
    · unfold Remove
      rw [Exec.bind_error (check_out_of_range_error (by omega))]
      exact ⟨h0, h1, h2⟩

/-- C18 (the code departs from the claim): the default constructor leaves `size_ == 0` and
`capacity_ == 10`, which satisfies `0 ≤ size_ ≤ capacity_`.  On that list `Remove(-1)` passes
the check `index >= size_`, reads `data_[-1]` (a byte no write has set, `0` here), runs its
loop once, which copies `data_[0]` to `data_[-1]`, and executes `size_--`: it returns with
`size_ == -1`.  That state is reachable,
does not satisfy the invariant, and `GetSize()` returns `-1` in it. -/
theorem Remove_with_negative_index_breaks_the_invariant :
    ctor_default
        = Except.ok { size_ := 0, capacity_ := 10, data_ := [0, 0, 0, 0, 0, 0, 0, 0, 0, 0] }
    ∧ Invariant { size_ := 0, capacity_ := 10, data_ := [0, 0, 0, 0, 0, 0, 0, 0, 0, 0] }
    ∧ Remove (-1) { size_ := 0, capacity_ := 10, data_ := [0, 0, 0, 0, 0, 0, 0, 0, 0, 0] }
        = (Except.ok 0,
            { size_ := -1, capacity_ := 10, data_ := [0, 0, 0, 0, 0, 0, 0, 0, 0, 0],
              outside := [(-1, 0)], stray := [-1, -1] })
    ∧ Reachable { size_ := -1, capacity_ := 10, data_ := [0, 0, 0, 0, 0, 0, 0, 0, 0, 0],
                  outside := [(-1, 0)], stray := [-1, -1] }
    ∧ ¬ Invariant { size_ := -1, capacity_ := 10, data_ := [0, 0, 0, 0, 0, 0, 0, 0, 0, 0],
                    outside := [(-1, 0)], stray := [-1, -1] }
    ∧ GetSize { size_ := -1, capacity_ := 10, data_ := [0, 0, 0, 0, 0, 0, 0, 0, 0, 0],
                outside := [(-1, 0)], stray := [-1, -1] }
        = (Except.ok (-1),
            { size_ := -1, capacity_ := 10, data_ := [0, 0, 0, 0, 0, 0, 0, 0, 0, 0],
              outside := [(-1, 0)], stray := [-1, -1] }) := by
  refine ⟨by decide, by decide, by decide, ?_, by decide, by decide⟩
  exact Reachable.Remove { size_ := 0, capacity_ := 10, data_ := [0, 0, 0, 0, 0, 0, 0, 0, 0, 0] }
    (-1) (Reachable.ctor_default _ (by decide))

/-! ### `Insert` followed by `Remove` -/

/-- C19, as amended: for every state with `0 ≤ size_ ≤ capacity_ ≤ INT_MAX` whose buffer has
`capacity_` slots, and with `capacity_ ≤ INT_MAX - 10` when the buffer is full, every index
`0 ≤ i < size_` and every `v`, `Insert(i, v)` returns, the following `Remove(i)` returns `v`,
and then `GetSize()` is the original size and `Get(j)` is what it was for every
`0 ≤ j < size_`; the capacity is the old one plus 10 when the list was full, and the old one
otherwise. -/
theorem Insert_then_Remove_restores (l : ArrayList) (i : Int) (v : CChar)
    (h1 : l.size_ ≤ l.capacity_) (h2 : (l.data_.length : Int) = l.capacity_)
    (h3 : l.capacity_ ≤ 2147483647) (h4 : l.size_ = l.capacity_ → l.capacity_ ≤ 2147483637)
    (hi0 : 0 ≤ i) (hi1 : i < l.size_) :
    ∃ l1 l2, Insert i v l = (Except.ok (), l1) ∧ Remove i l1 = (Except.ok v, l2)
      ∧ GetSize l2 = (Except.ok l.size_, l2)
      ∧ (∀ j : Int, 0 ≤ j → j < l.size_ →
          ∃ y, Get j l = (Except.ok y, l) ∧ Get j l2 = (Except.ok y, l2))
      ∧ GetCapacity l2
          = (Except.ok (if l.size_ = l.capacity_ then l.capacity_ + 10 else l.capacity_), l2) := by
  obtain ⟨l1, hp, hsz, hcap, hlen, hv, hlo, hhi, _⟩ := Insert_run l i v hi0 hi1 h1 h2 h3 h4
  have hle : l1.size_ ≤ l1.capacity_ := by
    rw [hsz, hcap]; split <;> omega
  obtain ⟨x, l2, hr, hx, hsz2, hcap2, _, hlo2, hmid2, _⟩ :=
    Remove_run l1 i hi0 (by omega) hle hlen
  have hxv : x = v := by
    rw [hv] at hx
    exact (Option.some.inj hx).symm
  refine ⟨l1, l2, hp, by rw [hr, hxv], by simp [GetSize, hsz2, hsz], ?_,
    by simp [GetCapacity, hcap2, hcap]⟩
  intro j hj0 hj1
  obtain ⟨y, hy⟩ := slot_eq_some (d := l.data_) hj0 (by omega)
  refine ⟨y, Get_ok hj1 hy, Get_ok (by omega) ?_⟩
  by_cases hji : j < i
  · rw [hlo2 j hji, hlo j hji, hy]
  · rw [hmid2 j (by omega) (by omega), hhi j (by omega) hj1, hy]

/-- C19, as stated, fails on a full list of `INT_MAX` elements: the state satisfies
`0 ≤ size_ ≤ capacity_` with a buffer of `capacity_` slots, the index 0 is valid, and
`Insert(0, 'x')` followed by `Remove(0)` ends at the `assert` of `resize` inside `Insert`;
`Remove` is not reached and `'x'` is not returned. -/
theorem Insert_then_Remove_at_largest_capacity :
    Invariant { size_ := 2147483647, capacity_ := 2147483647,
                data_ := List.replicate 2147483647 0 }
    ∧ (Insert 0 120 >>= fun _ => Remove 0)
          { size_ := 2147483647, capacity_ := 2147483647, data_ := List.replicate 2147483647 0 }
        = (Except.error Fault.assertion_failed,
            { size_ := 2147483647, capacity_ := 2147483647,
              data_ := List.replicate 2147483647 0 }) :=
  ⟨⟨by decide, le_refl _, by simp only [List.length_replicate]; rfl⟩,
    Exec.bind_error (Insert_overflow _ 0 120 (by decide) rfl (by decide) (by decide))⟩

end ArrayList

namespace LinkedList

/-- C10 (the code departs from the claim): on the newly constructed list, whose `head_` and
`tail_` are both `nullptr`, `PushBack('a')` allocates and fills the new node and then executes
`tail_->next_ = n` through the null `tail_`; it does not return, and neither `head_` nor
`tail_` has been set to the new node. -/
theorem PushBack_on_empty_list_dereferences_null_tail :
    ctor.head_ = none ∧ ctor.tail_ = none
    ∧ PushBack 97 ctor
        = (Except.error Fault.undefined_behaviour,
            { size_ := 0, head_ := none, tail_ := none,
              heap := [some { data := 97, next_ := none }] }) := by
  decide

/-! ### Trip counts

As for the array, a larger count than the exact trip count gives the same run. -/

theorem walk_count (bound : Int) (n : Nat) : ∀ (i : Int) (p : NodePtr) (s : LinkedList),
    (bound - i).toNat ≤ n → walk bound n i p s = walk bound (bound - i).toNat i p s := by
  induction n with
  | zero =>
    intro i p s h
    rw [Nat.le_zero.mp h]
  | succ n ih =>
    intro i p s h
    by_cases hlt : i < bound
    · have hm : (bound - i).toNat = (bound - (i + 1)).toNat + 1 := by omega
      rw [hm, walk, walk, if_pos hlt, if_pos hlt]
      exact Exec.bind_congr_apply s (fun q s1 => ih (i + 1) q s1 (by omega))
    · have hm : (bound - i).toNat = 0 := by omega
      rw [hm, walk, walk, if_neg hlt]

theorem Clear_loop_count (bound : Int) (n : Nat) : ∀ (i : Int) (p : NodePtr) (s : LinkedList),
    (bound - i).toNat ≤ n →
    Clear_loop bound n i p s = Clear_loop bound (bound - i).toNat i p s := by
  induction n with
  | zero =>
    intro i p s h
    rw [Nat.le_zero.mp h]
  | succ n ih =>
    intro i p s h
    by_cases hlt : i < bound
    · have hm : (bound - i).toNat = (bound - (i + 1)).toNat + 1 := by omega
      rw [hm, Clear_loop, Clear_loop, if_pos hlt, if_pos hlt]
      exact Exec.bind_congr_apply s (fun q s1 =>
        Exec.bind_congr_apply s1 (fun _ s2 => ih (i + 1) q s2 (by omega)))
    · have hm : (bound - i).toNat = 0 := by omega
      rw [hm, Clear_loop, Clear_loop, if_neg hlt]

theorem linked_IndexOf_loop_count (v : CChar) (bound : Int) (n : Nat) :
    ∀ (i : Int) (p : NodePtr) (s : LinkedList), (bound - i).toNat ≤ n →
    IndexOf_loop v bound n i p s = IndexOf_loop v bound (bound - i).toNat i p s := by
  induction n with
  | zero =>
    intro i p s h
    rw [Nat.le_zero.mp h]
  | succ n ih =>
    intro i p s h
    by_cases hlt : i < bound
    · have hm : (bound - i).toNat = (bound - (i + 1)).toNat + 1 := by omega
      rw [hm, IndexOf_loop, IndexOf_loop, if_pos hlt, if_pos hlt]
      refine Exec.bind_congr_apply s (fun x s1 => ?_)
      by_cases hx : x = v
      · rw [if_pos hx, if_pos hx]
      · rw [if_neg hx, if_neg hx, Exec.read_bind, Exec.read_bind]
        by_cases ht : p = s1.tail_
        · rw [if_pos ht, if_pos ht]
        · rw [if_neg ht, if_neg ht]
          exact Exec.bind_congr_apply s1 (fun q s2 => ih (i + 1) q s2 (by omega))
    · have hm : (bound - i).toNat = 0 := by omega
      rw [hm, IndexOf_loop, IndexOf_loop, if_neg hlt]

/-! ### Walking the chain -/

theorem linked_check_passes {s : LinkedList} {index : Int} (h : index < s.size_) :
    check_out_of_range index s = (Except.ok (), s) := by
  have h' : ¬ index ≥ s.size_ := by omega
  simp [check_out_of_range, h']

theorem linked_check_throws {s : LinkedList} {index : Int} (h : s.size_ ≤ index) :
    check_out_of_range index s
      = (Except.error (Fault.out_of_range ("index is out of range: " ++ toString s.size_)), s) := by
  have h' : index ≥ s.size_ := h
  simp [check_out_of_range, h']

theorem get_next_ok {s : LinkedList} {p : NodePtr} {nd : Node} (h : node_at s.heap p = some nd) :
    get_next p s = (Except.ok nd.next_, s) := by
  simp [get_next, h]

theorem get_data_ok {s : LinkedList} {p : NodePtr} {nd : Node} (h : node_at s.heap p = some nd) :
    get_data p s = (Except.ok nd.data, s) := by
  simp [get_data, h]

theorem is_chain_cons {h : List (Option Node)} {p : NodePtr} {v : CChar} {vs : List CChar} :
    is_chain h p (v :: vs) = true
      ↔ ∃ nd, node_at h p = some nd ∧ nd.data = v ∧ is_chain h nd.next_ vs = true := by
  rw [is_chain]
  cases hn : node_at h p with
  | none => simp
  | some nd => simp

/-- Walking `n` links from the start of a chain of at least `n` nodes returns, leaves the
state as it was, and reaches the start of the chain without its first `n` nodes. -/
theorem walk_along_chain (s : LinkedList) (bound : Int) (n : Nat) :
    ∀ (i : Int) (p : NodePtr) (vs : List CChar), is_chain s.heap p vs = true →
      n = (bound - i).toNat → n ≤ vs.length →
      ∃ q, walk bound n i p s = (Except.ok q, s) ∧ is_chain s.heap q (vs.drop n) = true := by
  induction n with
  | zero =>
    intro i p vs hch _ _
    exact ⟨p, rfl, by simpa using hch⟩
  | succ n ih =>
    intro i p vs hch hn hlen
    have hlt : i < bound := by omega
    cases vs with
    | nil => simp at hlen
    | cons v vs =>
      obtain ⟨nd, hnd, _, hrest⟩ := is_chain_cons.mp hch
      obtain ⟨q, hq, hqc⟩ := ih (i + 1) nd.next_ vs hrest (by omega)
        (by simpa using hlen)
      refine ⟨q, ?_, by simpa using hqc⟩
      rw [walk, if_pos hlt, Exec.bind_ok (get_next_ok hnd)]
      exact hq

/-- C16: for every state whose chain from `head_` holds the values `vs` with `vs.length`
equal to `size_`, and every `i < size_`, `Get(i)` returns the `i`-th value of the chain, the
one in the node reached from `head_` by `i` links, and leaves the state as it was; and on
every state `t`, `Get(j)` with `j ≥ size_` throws `std::out_of_range` with the message
`"index is out of range: "` followed by `size_`. -/
theorem Get_returns_chain_element (s t : LinkedList) (vs : List CChar) (j : Int)
    (hch : is_chain s.heap s.head_ vs = true) (hsz : (vs.length : Int) = s.size_)
    (hj : t.size_ ≤ j) :
    (∀ (i : Nat) (hi : i < vs.length), Get i s = (Except.ok vs[i], s))
    ∧ Get j t
        = (Except.error (Fault.out_of_range ("index is out of range: " ++ toString t.size_)), t) := by
  constructor
  · intro i hi
    obtain ⟨q, hq, hqc⟩ := walk_along_chain s i (i : Int).toNat 0 s.head_ vs hch (by omega)
      (by omega)
    have hdrop : vs.drop (i : Int).toNat = vs[i] :: vs.drop (i + 1) := by
      have : (i : Int).toNat = i := by omega
      rw [this]
      exact List.drop_eq_getElem_cons hi
    rw [hdrop] at hqc
    obtain ⟨nd, hnd, hdata, _⟩ := is_chain_cons.mp hqc
    unfold Get
    rw [Exec.bind_ok (linked_check_passes (by omega)), Exec.read_bind, Exec.bind_ok hq,
      get_data_ok hnd, hdata]
  · unfold Get
    rw [Exec.bind_error (linked_check_throws hj)]

/-! ### No member function assigns `size_` -/

theorem new_node_keeps_size (s : LinkedList) : (new_node s).2.size_ = s.size_ := rfl

theorem get_data_keeps_size (p : NodePtr) (s : LinkedList) : (get_data p s).2.size_ = s.size_ := by
  unfold get_data
  split <;> rfl

theorem get_next_keeps_size (p : NodePtr) (s : LinkedList) : (get_next p s).2.size_ = s.size_ := by
  unfold get_next
  split <;> rfl

theorem set_data_keeps_size (p : NodePtr) (v : CChar) (s : LinkedList) :
    (set_data p v s).2.size_ = s.size_ := by
  unfold set_data
  split <;> rfl

theorem set_next_keeps_size (p q : NodePtr) (s : LinkedList) :
    (set_next p q s).2.size_ = s.size_ := by
  unfold set_next
  split <;> rfl

theorem delete_node_keeps_size (p : NodePtr) (s : LinkedList) :
    (delete_node p s).2.size_ = s.size_ := by
  unfold delete_node
  split
  · rfl
  · split <;> rfl

theorem delete_array_keeps_size (p : NodePtr) (s : LinkedList) :
    (delete_array p s).2.size_ = s.size_ := by
  unfold delete_array
  split <;> rfl

theorem ptr_diff_keeps_size (p q : NodePtr) (s : LinkedList) :
    (ptr_diff p q s).2.size_ = s.size_ := by
  unfold ptr_diff
  split <;> rfl

theorem linked_check_keeps_size (index : Int) (s : LinkedList) :
    (check_out_of_range index s).2.size_ = s.size_ := by
  unfold check_out_of_range
  rw [Exec.read_bind]
  split <;> rfl

theorem walk_keeps_size (bound : Int) (n : Nat) : ∀ (i : Int) (p : NodePtr) (s : LinkedList),
    (walk bound n i p s).2.size_ = s.size_ := by
  induction n with
  | zero => intro i p s; rfl
  | succ n ih =>
    intro i p s
    rw [walk]
    split
    · exact Exec.bind_keeps (fun t : LinkedList => t.size_) (get_next_keeps_size p)
        (fun q => ih (i + 1) q) s
    · rfl

theorem Clear_loop_keeps_size (bound : Int) (n : Nat) :
    ∀ (i : Int) (p : NodePtr) (s : LinkedList), (Clear_loop bound n i p s).2.size_ = s.size_ := by
  induction n with
  | zero => intro i p s; rfl
  | succ n ih =>
    intro i p s
    rw [Clear_loop]
    split
    · exact Exec.bind_keeps (fun t : LinkedList => t.size_) (get_next_keeps_size p)
        (fun q => Exec.bind_keeps (fun t : LinkedList => t.size_) (delete_array_keeps_size p)
          (fun _ => ih (i + 1) q)) s
    · rfl

theorem linked_IndexOf_loop_keeps_size (v : CChar) (bound : Int) (n : Nat) :
    ∀ (i : Int) (p : NodePtr) (s : LinkedList),
      (IndexOf_loop v bound n i p s).2.size_ = s.size_ := by
  induction n with
  | zero => intro i p s; rfl
  | succ n ih =>
    intro i p s
    rw [IndexOf_loop]
    split
    · refine Exec.bind_keeps (fun t : LinkedList => t.size_) (get_data_keeps_size p)
        (fun x t => ?_) s
      split
      · rfl
      · rw [Exec.read_bind]
        split
        · rfl
        · exact Exec.bind_keeps (fun t : LinkedList => t.size_) (get_next_keeps_size p)
            (fun q => ih (i + 1) q) t
    · rfl

theorem linked_PushBack_keeps_size (v : CChar) (s : LinkedList) :
    (PushBack v s).2.size_ = s.size_ := by
  revert s
  unfold PushBack
  repeat' first
    | exact fun _ => rfl
    | exact new_node_keeps_size
    | exact set_data_keeps_size _ _
    | exact set_next_keeps_size _ _
    | exact get_next_keeps_size _
    | exact get_data_keeps_size _
    | exact delete_node_keeps_size _
    | exact delete_array_keeps_size _
    | exact ptr_diff_keeps_size _ _
    | exact linked_check_keeps_size _
    | exact walk_keeps_size _ _ _ _
    | exact Clear_loop_keeps_size _ _ _ _
    | exact linked_IndexOf_loop_keeps_size _ _ _ _ _
    | intro _
    | apply Exec.bind_keeps (fun t : LinkedList => t.size_)

theorem linked_Insert_keeps_size (index : Int) (v : CChar) (s : LinkedList) :
    (Insert index v s).2.size_ = s.size_ := by
  revert s
  unfold Insert
  repeat' first
    | exact fun _ => rfl
    | exact new_node_keeps_size
    | exact set_data_keeps_size _ _
    | exact set_next_keeps_size _ _
    | exact get_next_keeps_size _
    | exact get_data_keeps_size _
    | exact delete_node_keeps_size _
    | exact delete_array_keeps_size _
    | exact ptr_diff_keeps_size _ _
    | exact linked_check_keeps_size _
    | exact walk_keeps_size _ _ _ _
    | exact Clear_loop_keeps_size _ _ _ _
    | exact linked_IndexOf_loop_keeps_size _ _ _ _ _
    | intro _
    | apply Exec.bind_keeps (fun t : LinkedList => t.size_)

theorem linked_Remove_keeps_size (index : Int) (s : LinkedList) :
    (Remove index s).2.size_ = s.size_ := by
  revert s
  unfold Remove
  repeat' first
    | exact fun _ => rfl
    | exact new_node_keeps_size
    | exact set_data_keeps_size _ _
    | exact set_next_keeps_size _ _
    | exact get_next_keeps_size _
    | exact get_data_keeps_size _
    | exact delete_node_keeps_size _
    | exact delete_array_keeps_size _
    | exact ptr_diff_keeps_size _ _
    | exact linked_check_keeps_size _
    | exact walk_keeps_size _ _ _ _
    | exact Clear_loop_keeps_size _ _ _ _
    | exact linked_IndexOf_loop_keeps_size _ _ _ _ _
    | intro _
    | apply Exec.bind_keeps (fun t : LinkedList => t.size_)

theorem linked_Clear_keeps_size  (s : LinkedList) :
    (Clear s).2.size_ = s.size_ := by
  revert s
  unfold Clear
  repeat' first
    | exact fun _ => rfl
    | exact new_node_keeps_size
    | exact set_data_keeps_size _ _
    | exact set_next_keeps_size _ _
    | exact get_next_keeps_size _
    | exact get_data_keeps_size _
    | exact delete_node_keeps_size _
    | exact delete_array_keeps_size _
    | exact ptr_diff_keeps_size _ _
    | exact linked_check_keeps_size _
    | exact walk_keeps_size _ _ _ _
    | exact Clear_loop_keeps_size _ _ _ _
    | exact linked_IndexOf_loop_keeps_size _ _ _ _ _
    | intro _
    | apply Exec.bind_keeps (fun t : LinkedList => t.size_)

theorem linked_Get_keeps_size (index : Int) (s : LinkedList) :
    (Get index s).2.size_ = s.size_ := by
  revert s
  unfold Get
  repeat' first
    | exact fun _ => rfl
    | exact new_node_keeps_size
    | exact set_data_keeps_size _ _
    | exact set_next_keeps_size _ _
    | exact get_next_keeps_size _
    | exact get_data_keeps_size _
    | exact delete_node_keeps_size _
    | exact delete_array_keeps_size _
    | exact ptr_diff_keeps_size _ _
    | exact linked_check_keeps_size _
    | exact walk_keeps_size _ _ _ _
    | exact Clear_loop_keeps_size _ _ _ _
    | exact linked_IndexOf_loop_keeps_size _ _ _ _ _
    | intro _
    | apply Exec.bind_keeps (fun t : LinkedList => t.size_)

theorem linked_IndexOf_keeps_size (v : CChar) (s : LinkedList) :
    (IndexOf v s).2.size_ = s.size_ := by
  revert s
  unfold IndexOf
  repeat' first
    | exact fun _ => rfl
    | exact new_node_keeps_size
    | exact set_data_keeps_size _ _
    | exact set_next_keeps_size _ _
    | exact get_next_keeps_size _
    | exact get_data_keeps_size _
    | exact delete_node_keeps_size _
    | exact delete_array_keeps_size _
    | exact ptr_diff_keeps_size _ _
    | exact linked_check_keeps_size _
    | exact walk_keeps_size _ _ _ _
    | exact Clear_loop_keeps_size _ _ _ _
    | exact linked_IndexOf_loop_keeps_size _ _ _ _ _
    | intro _
    | apply Exec.bind_keeps (fun t : LinkedList => t.size_)

theorem linked_Reachable_size {s : LinkedList} (hr : Reachable s) : s.size_ = 0 := by
  induction hr with
  | ctor => rfl
  | PushBack s v _ ih => rw [linked_PushBack_keeps_size, ih]
  | Insert s i v _ ih => rw [linked_Insert_keeps_size, ih]
  | Remove s i _ ih => rw [linked_Remove_keeps_size, ih]
  | Clear s _ ih => rw [linked_Clear_keeps_size, ih]
  | Get s i _ ih => rw [linked_Get_keeps_size, ih]
  | IndexOf s v _ ih => rw [linked_IndexOf_keeps_size, ih]
  | IsEmpty s _ ih => exact ih
  | GetSize s _ ih => exact ih
  | GetCapacity s _ ih => exact ih

/-! ### Calls on well-formed lists

The lists used below: the one-element list `'a'`, whose single node at address 0 is both
`head_` and `tail_`, with `size_ == 1`; and the list `'a', 'b', 'c'`, with nodes at the
addresses 0, 1, 2 linked in this order, `head_` at 0, `tail_` at 2 and `size_ == 3`. -/

/-- C11 (the code departs from the claim): `PushBack` ends, on every state and however it
ends, with `size_` as it was.  On the one-element list `'a'`, `PushBack('b')` returns, the new
node holds `'b'`, is linked after the old tail and is the new tail, but `GetSize()` still
returns 1, `Get(GetSize() - 1)` returns `'a'`, and `Get(1)` throws `std::out_of_range`. -/
theorem PushBack_does_not_count_the_new_node (s : LinkedList) (v : CChar) :
    (GetSize (PushBack v s).2).1 = (GetSize s).1
    ∧ PushBack 98 { size_ := 1, head_ := some 0, tail_ := some 0,
                    heap := [some { data := 97, next_ := none }] }
        = (Except.ok (),
            { size_ := 1, head_ := some 0, tail_ := some 1,
              heap := [some { data := 97, next_ := some 1 }, some { data := 98, next_ := none }] })
    ∧ (GetSize { size_ := 1, head_ := some 0, tail_ := some 1,
                 heap := [some { data := 97, next_ := some 1 },
                          some { data := 98, next_ := none }] }).1 = Except.ok 1
    ∧ (Get (1 - 1) { size_ := 1, head_ := some 0, tail_ := some 1,
                     heap := [some { data := 97, next_ := some 1 },
                              some { data := 98, next_ := none }] }).1 = Except.ok 97
    ∧ (Get 1 { size_ := 1, head_ := some 0, tail_ := some 1,
               heap := [some { data := 97, next_ := some 1 },
                        some { data := 98, next_ := none }] }).1
        = Except.error (Fault.out_of_range "index is out of range: 1") := by
  refine ⟨?_, by decide, by decide, by decide, by decide⟩
  show Except.ok (PushBack v s).2.size_ = Except.ok s.size_
  rw [linked_PushBack_keeps_size]

/-- C12 (the code departs from the claim): `IsEmpty()` returns `head_ != nullptr`.  On the
newly constructed list `GetSize()` returns 0 and `IsEmpty()` returns false; on the one-element
list `'a'` `GetSize()` returns 1 and `IsEmpty()` returns true. -/
theorem IsEmpty_is_false_on_the_new_list :
    GetSize ctor = (Except.ok 0, ctor)
    ∧ IsEmpty ctor = (Except.ok false, ctor)
    ∧ (GetSize { size_ := 1, head_ := some 0, tail_ := some 0,
                 heap := [some { data := 97, next_ := none }] }).1 = Except.ok 1
    ∧ (IsEmpty { size_ := 1, head_ := some 0, tail_ := some 0,
                 heap := [some { data := 97, next_ := none }] }).1 = Except.ok true := by
  decide

/-- C13 (the code departs from the claim): on the list `'a', 'b', 'c'`, `Insert(0, 'x')` walks
no link, takes `head_` as the predecessor and links the new node after it: the chain read
from `head_` is then `'a', 'x', 'b', 'c'`, with `'x'` at position 1 and `'a'` still at
position 0. -/
theorem Insert_at_zero_links_after_head :
    is_chain [some { data := 97, next_ := some 1 }, some { data := 98, next_ := some 2 },
              some { data := 99, next_ := none }] (some 0) [97, 98, 99] = true
    ∧ Insert 0 120 { size_ := 3, head_ := some 0, tail_ := some 2,
                     heap := [some { data := 97, next_ := some 1 },
                              some { data := 98, next_ := some 2 },
                              some { data := 99, next_ := none }] }
        = (Except.ok (),
            { size_ := 3, head_ := some 0, tail_ := some 2,
              heap := [some { data := 97, next_ := some 3 }, some { data := 98, next_ := some 2 },
                       some { data := 99, next_ := none }, some { data := 120, next_ := some 1 }] })
    ∧ is_chain [some { data := 97, next_ := some 3 }, some { data := 98, next_ := some 2 },
                some { data := 99, next_ := none }, some { data := 120, next_ := some 1 }]
        (some 0) [97, 120, 98, 99] = true
    ∧ is_chain [some { data := 97, next_ := some 3 }, some { data := 98, next_ := some 2 },
                some { data := 99, next_ := none }, some { data := 120, next_ := some 1 }]
        (some 0) [120, 97, 98, 99] = false := by
  decide

/-- C14 (the code departs from the claim): on the list `'a', 'b', 'c'`, `Remove(0)` walks no
link, takes `head_` as the predecessor and unlinks the node after it: it returns `'b'`, and
the chain read from `head_` is then `'a', 'c'`.  On the one-element list `'a'`, `Remove(0)`
evaluates `nextNode->next_->next_` with `nextNode->next_ == nullptr` and does not return. -/
theorem Remove_at_zero_unlinks_the_second_node :
    Remove 0 { size_ := 3, head_ := some 0, tail_ := some 2,
               heap := [some { data := 97, next_ := some 1 },
                        some { data := 98, next_ := some 2 },
                        some { data := 99, next_ := none }] }
        = (Except.ok 98,
            { size_ := 3, head_ := some 0, tail_ := some 2,
              heap := [some { data := 97, next_ := some 2 }, none,
                       some { data := 99, next_ := none }] })
    ∧ is_chain [some { data := 97, next_ := some 2 }, none, some { data := 99, next_ := none }]
        (some 0) [97, 99] = true
    ∧ Remove 0 { size_ := 1, head_ := some 0, tail_ := some 0,
                 heap := [some { data := 97, next_ := none }] }
        = (Except.error Fault.undefined_behaviour,
            { size_ := 1, head_ := some 0, tail_ := some 0,
              heap := [some { data := 97, next_ := none }] }) := by
  decide

/-- C15 (the code departs from the claim): `Clear` has no assignment to `head_`, `tail_` or
`size_`.  On the one-element list `'a'` its loop runs no iteration and control leaves at
`delete[] nextNode`, applied to a node that came from `new Node`; `head_` and `tail_` still
point to that node, `size_` is still 1, so `GetSize()` returns 1 and `Get(0)` returns `'a'`.
On the list `'a', 'b', 'c'` control leaves at the pointer difference `tail_ - head_` of two
separate nodes, with all three fields as they were.  On the newly constructed list `Clear()`
returns and `IsEmpty()` then returns false. -/
theorem Clear_leaves_head_tail_and_size :
    Clear { size_ := 1, head_ := some 0, tail_ := some 0,
            heap := [some { data := 97, next_ := none }] }
        = (Except.error Fault.undefined_behaviour,
            { size_ := 1, head_ := some 0, tail_ := some 0,
              heap := [some { data := 97, next_ := none }] })
    ∧ (GetSize { size_ := 1, head_ := some 0, tail_ := some 0,
                 heap := [some { data := 97, next_ := none }] }).1 = Except.ok 1
    ∧ (Get 0 { size_ := 1, head_ := some 0, tail_ := some 0,
               heap := [some { data := 97, next_ := none }] }).1 = Except.ok 97
    ∧ Clear { size_ := 3, head_ := some 0, tail_ := some 2,
              heap := [some { data := 97, next_ := some 1 },
                       some { data := 98, next_ := some 2 },
                       some { data := 99, next_ := none }] }
        = (Except.error Fault.undefined_behaviour,
            { size_ := 3, head_ := some 0, tail_ := some 2,
              heap := [some { data := 97, next_ := some 1 },
                       some { data := 98, next_ := some 2 },
                       some { data := 99, next_ := none }] })
    ∧ Clear ctor = (Except.ok (), ctor)
    ∧ IsEmpty ctor = (Except.ok false, ctor) := by
  decide

/-- C20: no member function assigns `size_`: on every state `s` and for every argument,
`PushBack`, `Insert`, `Remove`, `Clear`, `Get` and `IndexOf` end with `size_` as it was.
So in every state `t` reachable from construction `GetSize()` and `GetCapacity()` return 0,
and for every index `i ≥ 0` each of `Get(i)`, `Insert(i, v)` and `Remove(i)` throws
`std::out_of_range` and leaves the state as it was. -/
theorem size_is_never_assigned (s t : LinkedList) (v : CChar) (i k : Int)
    (hr : Reachable t) (hi : 0 ≤ i) :
    ((PushBack v s).2.size_ = s.size_ ∧ (Insert k v s).2.size_ = s.size_
      ∧ (Remove k s).2.size_ = s.size_ ∧ (Clear s).2.size_ = s.size_
      ∧ (Get k s).2.size_ = s.size_ ∧ (IndexOf v s).2.size_ = s.size_)
    ∧ GetSize t = (Except.ok 0, t)
    ∧ GetCapacity t = (Except.ok 0, t)
    ∧ Get i t = (Except.error (Fault.out_of_range "index is out of range: 0"), t)
    ∧ Insert i v t = (Except.error (Fault.out_of_range "index is out of range: 0"), t)
    ∧ Remove i t = (Except.error (Fault.out_of_range "index is out of range: 0"), t) := by
  have hz : t.size_ = 0 := linked_Reachable_size hr
  have hchk : check_out_of_range i t
      = (Except.error (Fault.out_of_range "index is out of range: 0"), t) := by
    have h := @linked_check_throws t i (by omega)
    rw [hz] at h
    exact h
  refine ⟨⟨linked_PushBack_keeps_size v s, linked_Insert_keeps_size k v s,
    linked_Remove_keeps_size k s, linked_Clear_keeps_size s, linked_Get_keeps_size k s,
    linked_IndexOf_keeps_size v s⟩, ?_, ?_, ?_, ?_, ?_⟩
  · simp [GetSize, hz]
  · simp [GetCapacity, hz]
  · unfold Get
    rw [Exec.bind_error hchk]
  · unfold Insert
    rw [Exec.bind_error hchk]
  · unfold Remove
    rw [Exec.bind_error hchk]

end LinkedList

/-! ## Instances at concrete inputs -/

namespace ArrayList

theorem PushBack_appends_witness :
    (∃ l', PushBack 99 { size_ := 2, capacity_ := 2, data_ := [97, 98] } = (Except.ok (), l')
        ∧ GetSize l' = (Except.ok (2 + 1), l')
        ∧ Get 2 l' = (Except.ok 99, l')
        ∧ ∀ i : Int, 0 ≤ i → i < 2 →
            ∃ x, Get i { size_ := 2, capacity_ := 2, data_ := [97, 98] }
                = (Except.ok x, { size_ := 2, capacity_ := 2, data_ := [97, 98] })
              ∧ Get i l' = (Except.ok x, l'))
    ∧ (∃ l0 l', ctor 2 = Except.ok l0 ∧ PushBack_all [97, 98, 99] l0 = (Except.ok (), l')
        ∧ ∀ (i : Nat) (h : i < [(97 : CChar), 98, 99].length),
            Get i l' = (Except.ok [(97 : CChar), 98, 99][i], l')) :=
  PushBack_appends { size_ := 2, capacity_ := 2, data_ := [97, 98] } 99 2 [97, 98, 99]
    (by decide) (by decide) (by decide) (by decide) (by decide) (by decide) (by decide)

theorem Insert_shifts_right_witness :
    ∃ l', Insert 1 99 { size_ := 2, capacity_ := 2, data_ := [97, 98] } = (Except.ok (), l')
      ∧ GetSize l' = (Except.ok (2 + 1), l')
      ∧ Get 1 l' = (Except.ok 99, l')
      ∧ (∀ j : Int, 0 ≤ j → j < 1 →
          ∃ x, Get j { size_ := 2, capacity_ := 2, data_ := [97, 98] }
              = (Except.ok x, { size_ := 2, capacity_ := 2, data_ := [97, 98] })
            ∧ Get j l' = (Except.ok x, l'))
      ∧ ∀ j : Int, 1 ≤ j → j < 2 →
          ∃ x, Get j { size_ := 2, capacity_ := 2, data_ := [97, 98] }
              = (Except.ok x, { size_ := 2, capacity_ := 2, data_ := [97, 98] })
            ∧ Get (j + 1) l' = (Except.ok x, l') :=
  Insert_shifts_right { size_ := 2, capacity_ := 2, data_ := [97, 98] } 1 99
    (by decide) (by decide) (by decide) (by decide) (by decide) (by decide)

theorem Remove_shifts_left_witness :
    ∃ x l', Remove 0 { size_ := 2, capacity_ := 2, data_ := [97, 98] } = (Except.ok x, l')
      ∧ Get 0 { size_ := 2, capacity_ := 2, data_ := [97, 98] }
          = (Except.ok x, { size_ := 2, capacity_ := 2, data_ := [97, 98] })
      ∧ GetSize l' = (Except.ok (2 - 1), l')
      ∧ (∀ j : Int, 0 ≤ j → j < 0 →
          ∃ y, Get j { size_ := 2, capacity_ := 2, data_ := [97, 98] }
              = (Except.ok y, { size_ := 2, capacity_ := 2, data_ := [97, 98] })
            ∧ Get j l' = (Except.ok y, l'))
      ∧ ∀ j : Int, 0 ≤ j → j < 2 - 1 →
          ∃ y, Get (j + 1) { size_ := 2, capacity_ := 2, data_ := [97, 98] }
              = (Except.ok y, { size_ := 2, capacity_ := 2, data_ := [97, 98] })
            ∧ Get j l' = (Except.ok y, l') :=
  (Remove_shifts_left { size_ := 2, capacity_ := 2, data_ := [97, 98] } 0
    (by decide) (by decide) (by decide) (by decide)).1

theorem index_not_below_size_is_rejected_witness :
    Get 2 { size_ := 2, capacity_ := 2, data_ := [97, 98] }
        = (Except.error (Fault.out_of_range "index is out of range: 2"),
            { size_ := 2, capacity_ := 2, data_ := [97, 98] })
    ∧ Insert 2 99 { size_ := 2, capacity_ := 2, data_ := [97, 98] }
        = (Except.error (Fault.out_of_range "index is out of range: 2"),
            { size_ := 2, capacity_ := 2, data_ := [97, 98] })
    ∧ Remove 2 { size_ := 2, capacity_ := 2, data_ := [97, 98] }
        = (Except.error (Fault.out_of_range "index is out of range: 2"),
            { size_ := 2, capacity_ := 2, data_ := [97, 98] }) :=
  index_not_below_size_is_rejected { size_ := 2, capacity_ := 2, data_ := [97, 98] } 2 99
    (by decide)

theorem IndexOf_least_index_witness :
    ∃ r, IndexOf 98 { size_ := 3, capacity_ := 4, data_ := [97, 98, 98, 98] }
        = (Except.ok r, { size_ := 3, capacity_ := 4, data_ := [97, 98, 98, 98] })
      ∧ (r = -1 ↔ ∀ i : Int, 0 ≤ i → i < 3 →
          Get i { size_ := 3, capacity_ := 4, data_ := [97, 98, 98, 98] }
            ≠ (Except.ok 98, { size_ := 3, capacity_ := 4, data_ := [97, 98, 98, 98] }))
      ∧ (r ≠ -1 → 0 ≤ r ∧ r < 3
          ∧ Get r { size_ := 3, capacity_ := 4, data_ := [97, 98, 98, 98] }
              = (Except.ok 98, { size_ := 3, capacity_ := 4, data_ := [97, 98, 98, 98] })
          ∧ ∀ j : Int, 0 ≤ j → j < r →
              Get j { size_ := 3, capacity_ := 4, data_ := [97, 98, 98, 98] }
                ≠ (Except.ok 98, { size_ := 3, capacity_ := 4, data_ := [97, 98, 98, 98] })) :=
  IndexOf_least_index { size_ := 3, capacity_ := 4, data_ := [97, 98, 98, 98] } 98
    (by decide) (by decide)

theorem Contains_agrees_with_IndexOf_witness :
    ∃ b r, Contains 99 { size_ := 2, capacity_ := 3, data_ := [97, 98, 99] }
        = (Except.ok b, { size_ := 2, capacity_ := 3, data_ := [97, 98, 99] })
      ∧ IndexOf 99 { size_ := 2, capacity_ := 3, data_ := [97, 98, 99] }
        = (Except.ok r, { size_ := 2, capacity_ := 3, data_ := [97, 98, 99] })
      ∧ (b = true ↔ r ≠ -1)
      ∧ (b = true ↔ ∃ i : Int, 0 ≤ i ∧ i < 2
          ∧ Get i { size_ := 2, capacity_ := 3, data_ := [97, 98, 99] }
              = (Except.ok 99, { size_ := 2, capacity_ := 3, data_ := [97, 98, 99] }))
      ∧ ((2 : Int) = 0 → b = false) :=
  Contains_agrees_with_IndexOf { size_ := 2, capacity_ := 3, data_ := [97, 98, 99] } 99
    (by decide) (by decide)

theorem capacity_grows_by_ten_when_full_witness :
    (∃ l', PushBack 99 { size_ := 2, capacity_ := 2, data_ := [97, 98] } = (Except.ok (), l')
        ∧ GetCapacity l' = (Except.ok 12, l'))
    ∧ (∃ l', Insert 1 99 { size_ := 2, capacity_ := 2, data_ := [97, 98] } = (Except.ok (), l')
        ∧ GetCapacity l' = (Except.ok 12, l'))
    ∧ (∃ l0 l', ctor 2 = Except.ok l0 ∧ PushBack_all [97, 98, 99] l0 = (Except.ok (), l')
        ∧ GetCapacity l' = (Except.ok 12, l')) :=
  have h := capacity_grows_by_ten_when_full { size_ := 2, capacity_ := 2, data_ := [97, 98] }
    { size_ := 2, capacity_ := 2, data_ := [97, 98] } 99 1 2 0 2 [97, 98, 99]
    (by decide) (by decide) (by decide) (by decide) (by decide) (by decide) (by decide)
  ⟨h.1, h.2.1 (by decide) (by decide), h.2.2.2.2.2.2.2.2⟩

theorem Remove_reads_slot_at_capacity_witness :
    slot [97, 98] 2 = none
    ∧ (∀ s : ArrayList, s.size_ = 2 → s.data_.length = [(97 : CChar), 98].length →
        (Remove_loop 1 (2 - 1) s).2.stray = 2 :: s.stray)
    ∧ ∃ x l', Remove 0 { size_ := 2, capacity_ := 2, data_ := [97, 98] } = (Except.ok x, l')
        ∧ l'.stray = [2] :=
  Remove_reads_slot_at_capacity { size_ := 2, capacity_ := 2, data_ := [97, 98] } 0
    (by decide) (by decide) (by decide) (by decide)

theorem Insert_then_Remove_restores_witness :
    ∃ l1 l2, Insert 0 120 { size_ := 1, capacity_ := 2, data_ := [97, 0] } = (Except.ok (), l1)
      ∧ Remove 0 l1 = (Except.ok 120, l2)
      ∧ GetSize l2 = (Except.ok 1, l2)
      ∧ (∀ j : Int, 0 ≤ j → j < 1 →
          ∃ y, Get j { size_ := 1, capacity_ := 2, data_ := [97, 0] }
              = (Except.ok y, { size_ := 1, capacity_ := 2, data_ := [97, 0] })
            ∧ Get j l2 = (Except.ok y, l2))
      ∧ GetCapacity l2 = (Except.ok 2, l2) :=
  Insert_then_Remove_restores { size_ := 1, capacity_ := 2, data_ := [97, 0] } 0 120
    (by decide) (by decide) (by decide) (by decide) (by decide) (by decide)

end ArrayList

namespace LinkedList

theorem Get_returns_chain_element_witness :
    (∀ (i : Nat) (hi : i < [(97 : CChar), 98, 99].length),
        Get i { size_ := 3, head_ := some 0, tail_ := some 2,
                heap := [some { data := 97, next_ := some 1 },
                         some { data := 98, next_ := some 2 },
                         some { data := 99, next_ := none }] }
          = (Except.ok [(97 : CChar), 98, 99][i],
              { size_ := 3, head_ := some 0, tail_ := some 2,
                heap := [some { data := 97, next_ := some 1 },
                         some { data := 98, next_ := some 2 },
                         some { data := 99, next_ := none }] }))
    ∧ Get 3 { size_ := 3, head_ := some 0, tail_ := some 2,
              heap := [some { data := 97, next_ := some 1 },
                       some { data := 98, next_ := some 2 },
                       some { data := 99, next_ := none }] }
        = (Except.error (Fault.out_of_range "index is out of range: 3"),
            { size_ := 3, head_ := some 0, tail_ := some 2,
              heap := [some { data := 97, next_ := some 1 },
                       some { data := 98, next_ := some 2 },
                       some { data := 99, next_ := none }] }) :=
  Get_returns_chain_element
    { size_ := 3, head_ := some 0, tail_ := some 2,
      heap := [some { data := 97, next_ := some 1 }, some { data := 98, next_ := some 2 },
               some { data := 99, next_ := none }] }
    { size_ := 3, head_ := some 0, tail_ := some 2,
      heap := [some { data := 97, next_ := some 1 }, some { data := 98, next_ := some 2 },
               some { data := 99, next_ := none }] }
    [97, 98, 99] 3 (by decide) (by decide) (by decide)

theorem size_is_never_assigned_witness :
    GetSize (PushBack 97 ctor).2 = (Except.ok 0, (PushBack 97 ctor).2)
    ∧ GetCapacity (PushBack 97 ctor).2 = (Except.ok 0, (PushBack 97 ctor).2)
    ∧ Get 0 (PushBack 97 ctor).2
        = (Except.error (Fault.out_of_range "index is out of range: 0"), (PushBack 97 ctor).2)
    ∧ Insert 0 98 (PushBack 97 ctor).2
        = (Except.error (Fault.out_of_range "index is out of range: 0"), (PushBack 97 ctor).2)
    ∧ Remove 0 (PushBack 97 ctor).2
        = (Except.error (Fault.out_of_range "index is out of range: 0"), (PushBack 97 ctor).2) :=
  (size_is_never_assigned ctor (PushBack 97 ctor).2 98 0 0
    (Reachable.PushBack ctor 97 Reachable.ctor) (by decide)).2

end LinkedList

end itis
